import Mathlib

/-!
Verification of the LiveGTO poker-trainer engine: a shallow embedding of the
board-texture classifier, the 13-bucket hand classifier, the strategy-table
lookup, the Bayesian range tracker and the multiway betting state machine,
together with theorems settling the specification's claims about them.

Conventions of the embedding:
* A playing card (a 2-character string such as `"Ah"` in the source) is the
  structure `Card` with `rank : Nat` (`0` = deuce … `12` = ace, the value of
  `rankInt` in `evaluator.js`) and `suit : Nat` encoding the suit character
  (`h = 0`, `d = 1`, `c = 2`, `s = 3`, the order of `SUITS` in
  `rangeTracker.js`).
* JavaScript numbers that carry chip amounts and probabilities are modelled
  as rationals (`ℚ`).
* Canonical hand keys, positions, streets, textures and buckets that the
  source passes around as strings are kept as `String` wherever the source
  performs string lookups, so that absent-key behaviour is representable.
-/

/-- A playing card: `rank` is `rankInt` of the card string (0 = 2 … 12 = A),
`suit` encodes the suit character with `h = 0`, `d = 1`, `c = 2`, `s = 3`. -/
structure Card where
  rank : Nat
  suit : Nat
deriving DecidableEq, Repr

instance : Inhabited Card := ⟨⟨0, 0⟩⟩

/-! ## Board texture classification

Embeds `classifyTexture` from `src/engine/postflop.js`
(the 13-bucket × 8-texture revision). -/

inductive Texture where
  | monotone | paired | wet_connected | wet_twotone
  | high_dry_A | high_dry_K | medium_dry | low_dry
deriving DecidableEq, Repr

open Texture in
/-- The 8 board textures, in the order of the source's `TEXTURES` list. -/
def TEXTURES : List Texture :=
  [monotone, paired, wet_connected, wet_twotone,
   high_dry_A, high_dry_K, medium_dry, low_dry]

/-- String name of a texture, as used in the composite strategy-table keys. -/
def textureName : Texture → String
  | .monotone => "monotone"
  | .paired => "paired"
  | .wet_connected => "wet_connected"
  | .wet_twotone => "wet_twotone"
  | .high_dry_A => "high_dry_A"
  | .high_dry_K => "high_dry_K"
  | .medium_dry => "medium_dry"
  | .low_dry => "low_dry"

/-- `Math.max` over the per-suit counts of `countBy(suits)`; on a non-empty
board this agrees with taking the maximum over the suits actually present. -/
def maxSuitCount (board : List Card) : Nat :=
  ((List.range 4).map fun s => board.countP fun c => c.suit = s).foldr max 0

/-- `Math.max` over the per-rank counts of `countBy(ranks)`. -/
def maxRankCount (board : List Card) : Nat :=
  ((List.range 13).map fun r => board.countP fun c => c.rank = r).foldr max 0

/-- `[...ranks].sort((a, b) => a - b)`. -/
def sortedBoardRanks (board : List Card) : List Nat :=
  (board.map Card.rank).insertionSort (· ≤ ·)

/-- The `maxGap` loop over consecutive entries of the sorted rank list. -/
def maxGapAux : List Nat → Nat
  | a :: b :: rest => max (b - a) (maxGapAux (b :: rest))
  | _ => 0

/-- Maximum gap between adjacent sorted board ranks. -/
def maxGap (board : List Card) : Nat := maxGapAux (sortedBoardRanks board)

/-- `Math.max(...ranks)` (boards are non-empty, so the `0` default is inert). -/
def highestRank (board : List Card) : Nat :=
  (board.map Card.rank).foldr max 0

/-- `classifyTexture` of `src/engine/postflop.js` (8-texture revision):
monotone, paired, then connected / two-tone, then rainbow-unconnected
sub-classified by the highest rank. -/
def classifyTexture (board : List Card) : Texture :=
  if maxSuitCount board ≥ 3 then .monotone
  else if maxRankCount board ≥ 2 then .paired
  else
    let isTwoTone := maxSuitCount board ≥ 2
    let isConnected := maxGap board ≤ 2
    if isConnected then .wet_connected
    else if isTwoTone then .wet_twotone
    else
      let highest := highestRank board
      if highest = 12 then .high_dry_A
      else if highest ≥ 10 then .high_dry_K
      else if highest ≥ 7 then .medium_dry
      else .low_dry

/-! ## Hand buckets and the hand evaluator collaborator -/

inductive Bucket where
  | premium | nut | strong | two_pair | top_pair | overpair
  | mid_pair | underpair | nut_draw | draw | weak_made | gutshot | air
deriving DecidableEq, Repr

open Bucket in
/-- The 13 hand buckets, strongest to weakest, in the order of the source's
`BUCKETS` list (13-bucket revision). -/
def BUCKETS : List Bucket :=
  [premium, nut, strong, two_pair, top_pair, overpair,
   mid_pair, underpair, nut_draw, draw, weak_made, gutshot, air]

/-- String name of a bucket, as used in the composite strategy-table keys. -/
def bucketName : Bucket → String
  | .premium => "premium"
  | .nut => "nut"
  | .strong => "strong"
  | .two_pair => "two_pair"
  | .top_pair => "top_pair"
  | .overpair => "overpair"
  | .mid_pair => "mid_pair"
  | .underpair => "underpair"
  | .nut_draw => "nut_draw"
  | .draw => "draw"
  | .weak_made => "weak_made"
  | .gutshot => "gutshot"
  | .air => "air"

/-- Count of cards of rank `r` among `cards`. -/
def rankCount (cards : List Card) (r : Nat) : Nat :=
  cards.countP fun c => c.rank = r

/-- Count of cards of suit `s` among `cards`. -/
def suitCount (cards : List Card) (s : Nat) : Nat :=
  cards.countP fun c => c.suit = s

/-- Whether the distinct ranks of `cards` contain five consecutive ranks
starting at `lo` (`lo = 0` with the wheel handled separately by
`hasStraightAmong`). -/
def hasRunFrom (cards : List Card) (lo : Nat) : Bool :=
  (List.range 5).all fun k => 0 < rankCount cards (lo + k)

/-- Whether `cards` contain a 5-card straight (ace playing high or low). -/
def hasStraightAmong (cards : List Card) : Bool :=
  ((List.range 9).any fun lo => hasRunFrom cards lo) ||
    (0 < rankCount cards 12 && (List.range 4).all fun k => 0 < rankCount cards k)

/-- The cards of suit `s` among `cards`. -/
def cardsOfSuit (cards : List Card) (s : Nat) : List Card :=
  cards.filter fun c => c.suit = s

/-- Modelled from the spec: the hand evaluator collaborator (`pokersolver`'s
`Hand.solve` classification, an external dependency absent from the sources)
composed with the repository's `getRankClass` mapping from
`src/engine/evaluator.js`: 0 = royal flush, 1 = straight flush,
2 = four of a kind, 3 = full house, 4 = flush, 5 = straight,
6 = three of a kind, 7 = two pair, 8 = pair, 9 = high card, always
describing the best 5-card hand available among the given cards. -/
def getRankClass (cards : List Card) : Nat :=
  let hasRoyal := (List.range 4).any fun s =>
    (List.range 5).all fun k => 0 < rankCount (cardsOfSuit cards s) (8 + k)
  let hasStraightFlush := (List.range 4).any fun s =>
    hasStraightAmong (cardsOfSuit cards s)
  let hasQuads := (List.range 13).any fun r => 4 ≤ rankCount cards r
  let hasFullHouse := (List.range 13).any fun r =>
    3 ≤ rankCount cards r &&
      (List.range 13).any fun q => q ≠ r && 2 ≤ rankCount cards q
  let hasFlush := (List.range 4).any fun s => 5 ≤ suitCount cards s
  let hasStraight := hasStraightAmong cards
  let hasTrips := (List.range 13).any fun r => 3 ≤ rankCount cards r
  let hasTwoPair := (List.range 13).any fun r =>
    2 ≤ rankCount cards r &&
      (List.range 13).any fun q => q ≠ r && 2 ≤ rankCount cards q
  let hasPair := (List.range 13).any fun r => 2 ≤ rankCount cards r
  if hasRoyal then 0
  else if hasStraightFlush then 1
  else if hasQuads then 2
  else if hasFullHouse then 3
  else if hasFlush then 4
  else if hasStraight then 5
  else if hasTrips then 6
  else if hasTwoPair then 7
  else if hasPair then 8
  else 9

/-! ## The 13-bucket hand classifier

`classifyHand` of `src/engine/abstraction.js` in its 13-bucket revision is
absent from the sources (only its 9-bucket predecessor, its test suite and
its callers are present), so the sub-classifiers below are modelled from the
spec, §4.2, cross-checked against the repository's 13-bucket test vectors. -/

/-- Hand ranks sorted descending (`.sort((a, b) => b - a)`). -/
def ranksDesc (cards : List Card) : List Nat :=
  (cards.map Card.rank).insertionSort (· ≥ ·)

/-- The distinct ranks of all known cards, ascending, with `-1` prepended
when an ace is present so the ace can play low
(`[...new Set(...)].sort` plus the `unshift(-1)` of the draw checker). -/
def extendedRanks (hand board : List Card) : List Int :=
  let ranks : List Int :=
    (((hand ++ board).map Card.rank).dedup.insertionSort (· ≤ ·)).map Int.ofNat
  if (12 : Int) ∈ ranks then -1 :: ranks else ranks

/-- The `(first, fourth)` endpoints of every window of 4 consecutive entries
of a list — the `for (let i = 0; i <= extended.length - 4; i++)` scan. -/
def windows4 : List Int → List (Int × Int)
  | a :: b :: c :: d :: rest => (a, d) :: windows4 (b :: c :: d :: rest)
  | _ => []

/-- Modelled from the spec: open-ended straight draw — 4 consecutive distinct
ranks with room to extend on both ends (ace can play low). -/
def hasOpenEnded (hand board : List Card) : Bool :=
  (windows4 (extendedRanks hand board)).any fun p =>
    p.2 - p.1 = 3 && p.1 > -1 && p.2 < 12

/-- Modelled from the spec: gutshot — a 4-card span of 4 distinct ranks
covering a 5-wide window (exactly one internal gap). -/
def hasGutshot (hand board : List Card) : Bool :=
  (windows4 (extendedRanks hand board)).any fun p => p.2 - p.1 = 4

/-- Modelled from the spec, §4.2's shared draw sub-routine: a suit count of
exactly 4 is a flush draw; flush draw + straight draw → `nut_draw`; flush
draw alone or open-ended alone → `draw`; gutshot alone → `gutshot`; on the
flop only, a 3-card run of one suit is a backdoor signal mapped to
`gutshot`; otherwise no draw. -/
def checkDraws (hand board : List Card) : Option Bucket :=
  let allCards := hand ++ board
  let hasFlushDraw := (List.range 4).any fun s => suitCount allCards s = 4
  let oesd := hasOpenEnded hand board
  let gut := hasGutshot hand board
  if hasFlushDraw && (oesd || gut) then some .nut_draw
  else if hasFlushDraw then some .draw
  else if oesd then some .draw
  else if gut then some .gutshot
  else if board.length = 3 && (List.range 4).any fun s => suitCount allCards s = 3 then
    some .gutshot
  else none

/-- Modelled from the spec: flush sub-classifier. The flush suit is the suit
holding five or more cards (unique when a flush is present); no hero card of
that suit → board flush (`two_pair` tier); else by hero's best flush-suit
rank: ace → `premium`, king/queen → `nut`, else `strong`. -/
def classifyFlush (hand board : List Card) : Bucket :=
  let allCards := hand ++ board
  let flushSuit := (((List.range 4).filter fun s => 5 ≤ suitCount allCards s).headD 0)
  let heroFlushRanks := (hand.filter fun c => c.suit = flushSuit).map Card.rank
  match heroFlushRanks.foldr (fun r m => max r m) 0, heroFlushRanks with
  | _, [] => .two_pair
  | best, _ =>
    if best = 12 then .premium
    else if best ≥ 10 then .nut
    else .strong

/-- Modelled from the spec: straight sub-classifier — `strong` when the
straight requires both hole cards (no hole rank duplicated on the board),
else `two_pair` tier. -/
def classifyStraight (hand board : List Card) : Bucket :=
  let boardRanks := board.map Card.rank
  let usesBoth := !(hand.any fun c => boardRanks.contains c.rank)
  if usesBoth then .strong else .two_pair

/-- Modelled from the spec: trips sub-classifier — a pocket-pair set is
`premium` on the top board rank and `nut` otherwise; trips using a paired
board and one hole card are `strong`. -/
def classifyTrips (hand board : List Card) : Bucket :=
  let handRanks := hand.map Card.rank
  let topBoard := (board.map Card.rank).foldr max 0
  let isSet := handRanks.getD 0 0 = handRanks.getD 1 0
  if isSet then
    if handRanks.getD 0 0 = topBoard then .premium else .nut
  else .strong

/-- Modelled from the spec: one-pair sub-classifier, comparing the hero's
pair rank against the sorted board ranks (overpair / top / middle / bottom
pair / underpair), with the shared draw sub-routine consulted in the
middle-pair and below-second-board cases. -/
def classifyPair (hand board : List Card) : Bucket :=
  let handRanks := ranksDesc hand
  let boardRanks := ranksDesc board
  let hr0 := handRanks.getD 0 0
  let hr1 := handRanks.getD 1 0
  let topBoard := boardRanks.getD 0 0
  let secondBoard := boardRanks.getD 1 0
  let thirdBoard := boardRanks.getD 2 0
  if hr0 = hr1 && hr0 > topBoard then
    -- Overpair
    if hr0 ≥ 10 then .strong
    else if hr0 ≥ 8 then .overpair
    else .underpair
  else if hr0 = topBoard || hr1 = topBoard then
    -- Top pair
    let kicker := if hr1 = topBoard then hr0 else hr1
    if kicker ≥ 9 then .top_pair else .mid_pair
  else if hr0 = secondBoard || hr1 = secondBoard then
    -- Middle pair: a concurrent flush/straight draw takes precedence
    match checkDraws hand board with
    | some .nut_draw => .nut_draw
    | some .draw => .draw
    | _ => .mid_pair
  else if hr0 = thirdBoard || hr1 = thirdBoard then
    -- Bottom pair
    .weak_made
  else if hr0 = hr1 && hr0 < topBoard then
    -- Pocket pair under the top board card; the spec leaves the
    -- between-top-and-second case implicit — modelled as `underpair`,
    -- the bucket of that name
    if hr0 > secondBoard then .underpair
    else match checkDraws hand board with
      | some d => d
      | none => .weak_made
  else
    -- Any other small pair (e.g. a paired board with no hero involvement)
    match checkDraws hand board with
    | some d => d
    | none => .weak_made

/-- Modelled from the spec: no-pair sub-classifier — draws first; otherwise
a strictly-higher hero card of rank king or better is the live-overcard
`gutshot` bucket, else `air`. -/
def classifyUnmade (hand board : List Card) : Bucket :=
  match checkDraws hand board with
  | some d => d
  | none =>
    let handTop := (ranksDesc hand).getD 0 0
    let boardTop := (ranksDesc board).getD 0 0
    if handTop > boardTop then
      if handTop ≥ 11 then .gutshot else .air
    else .air

/-- Modelled from the spec: `classifyHand` of `src/engine/abstraction.js`
(13-bucket revision, absent from the sources) — delegates to the
evaluator's coarse rank class, then applies the per-class sub-classifier.
The `texture` parameter is kept from the source signature; the final
13-bucket model does not split any class by texture (spec §4.2). -/
def classifyHand (hand board : List Card) (_texture : Texture) : Bucket :=
  let rankClass := getRankClass (hand ++ board)
  if rankClass ≤ 1 then .premium
  else if rankClass = 2 then .premium
  else if rankClass = 3 then .premium
  else if rankClass = 4 then classifyFlush hand board
  else if rankClass = 5 then classifyStraight hand board
  else if rankClass = 6 then classifyTrips hand board
  else if rankClass = 7 then .two_pair
  else if rankClass = 8 then classifyPair hand board
  else classifyUnmade hand board

/-! ## Strategy tables and lookup

Embeds the default-built tables and `getStrategy` / `getCorrectActions`
from `src/engine/postflop.js` (13-bucket × 8-texture revision). The
`strategies.json` data document is not part of the sources; the tables are
therefore the ones built from the in-source defaults (`_loadStrategies`
only ever replaces an entry by a non-empty override, so every conclusion
drawn below from "entries are non-empty" is override-independent). -/

/-- An action → probability map, in object-entry order. -/
abbrev ActionDist := List (String × ℚ)

/-- `_OOP_DEFAULTS` of `src/engine/rangeTracker.js` (postflop revision). -/
def OOP_DEFAULTS : List (String × ActionDist) :=
  [("premium",  [("check", 1/4), ("bet_m", 1/4), ("bet_l", 1/2)]),
   ("nut",      [("check", 1/5), ("bet_m", 3/10), ("bet_l", 1/2)]),
   ("strong",   [("check", 1/5), ("bet_m", 11/20), ("bet_l", 1/4)]),
   ("two_pair", [("check", 1/4), ("bet_m", 1/2), ("bet_l", 1/4)]),
   ("top_pair", [("check", 7/20), ("bet_s", 1/4), ("bet_m", 2/5)]),
   ("overpair", [("check", 2/5), ("bet_s", 1/4), ("bet_m", 7/20)]),
   ("mid_pair", [("check", 3/5), ("bet_s", 1/4), ("bet_m", 3/20)]),
   ("underpair", [("check", 7/10), ("bet_s", 1/5), ("bet_m", 1/10)]),
   ("nut_draw", [("check", 1/4), ("bet_m", 2/5), ("bet_l", 7/20)]),
   ("draw",     [("check", 2/5), ("bet_s", 3/10), ("bet_m", 3/10)]),
   ("weak_made", [("check", 4/5), ("bet_s", 1/5)]),
   ("gutshot",  [("check", 3/4), ("bet_s", 1/4)]),
   ("air",      [("check", 13/20), ("bet_s", 1/10), ("bet_l", 1/4)])]

/-- `_IP_DEFAULTS` of `src/engine/rangeTracker.js` (postflop revision). -/
def IP_DEFAULTS : List (String × ActionDist) :=
  [("premium",  [("check", 1/5), ("bet_m", 1/4), ("bet_l", 11/20)]),
   ("nut",      [("check", 3/20), ("bet_m", 7/20), ("bet_l", 1/2)]),
   ("strong",   [("check", 3/20), ("bet_m", 3/5), ("bet_l", 1/4)]),
   ("two_pair", [("check", 1/5), ("bet_m", 11/20), ("bet_l", 1/4)]),
   ("top_pair", [("check", 1/4), ("bet_s", 3/10), ("bet_m", 9/20)]),
   ("overpair", [("check", 3/10), ("bet_s", 7/20), ("bet_m", 7/20)]),
   ("mid_pair", [("check", 9/20), ("bet_s", 7/20), ("bet_m", 1/5)]),
   ("underpair", [("check", 11/20), ("bet_s", 3/10), ("bet_m", 3/20)]),
   ("nut_draw", [("check", 3/20), ("bet_m", 9/20), ("bet_l", 2/5)]),
   ("draw",     [("check", 1/4), ("bet_s", 7/20), ("bet_m", 2/5)]),
   ("weak_made", [("check", 13/20), ("bet_s", 7/20)]),
   ("gutshot",  [("check", 11/20), ("bet_s", 9/20)]),
   ("air",      [("check", 9/20), ("bet_s", 3/20), ("bet_l", 2/5)])]

/-- `_FB_DEFAULTS` of `src/engine/rangeTracker.js` (postflop revision). -/
def FB_DEFAULTS : List (String × ActionDist) :=
  [("premium",  [("call", 3/10), ("raise", 7/10)]),
   ("nut",      [("call", 2/5), ("raise", 3/5)]),
   ("strong",   [("call", 4/5), ("raise", 1/5)]),
   ("two_pair", [("call", 3/4), ("raise", 1/4)]),
   ("top_pair", [("call", 3/4), ("fold", 1/10), ("raise", 3/20)]),
   ("overpair", [("call", 7/10), ("fold", 3/20), ("raise", 3/20)]),
   ("mid_pair", [("call", 11/20), ("fold", 9/20)]),
   ("underpair", [("call", 2/5), ("fold", 3/5)]),
   ("nut_draw", [("call", 9/20), ("raise", 7/20), ("fold", 1/5)]),
   ("draw",     [("call", 1/2), ("raise", 1/5), ("fold", 3/10)]),
   ("weak_made", [("fold", 11/20), ("call", 9/20)]),
   ("gutshot",  [("fold", 3/5), ("call", 2/5)]),
   ("air",      [("fold", 7/10), ("raise", 3/20), ("call", 3/20)])]

/-- The source's inline `_BUCKETS` list of bucket-name strings. -/
def BUCKET_NAMES : List String :=
  ["premium", "nut", "strong", "two_pair", "top_pair", "overpair",
   "mid_pair", "underpair", "nut_draw", "draw", "weak_made", "gutshot", "air"]

/-- The texture-name strings, in `TEXTURES` order. -/
def TEXTURE_NAMES : List String := TEXTURES.map textureName

/-- The `OOP_STRATEGY` table built by the `for (tex) for (bkt)` loop:
`OOP|texture|bucket` → the OOP default for that bucket. -/
def OOP_STRATEGY : List (String × ActionDist) :=
  TEXTURE_NAMES.flatMap fun tex =>
    BUCKET_NAMES.map fun bkt =>
      ("OOP|" ++ tex ++ "|" ++ bkt,
        ((OOP_DEFAULTS.lookup bkt).getD [("check", 1)]))

/-- The `IP_VS_CHECK` table built by the same loop. -/
def IP_VS_CHECK : List (String × ActionDist) :=
  TEXTURE_NAMES.flatMap fun tex =>
    BUCKET_NAMES.map fun bkt =>
      ("IP|" ++ tex ++ "|" ++ bkt,
        ((IP_DEFAULTS.lookup bkt).getD [("check", 1)]))

/-- The `FACING_BET` table built by the same loop (keys carry no position). -/
def FACING_BET : List (String × ActionDist) :=
  TEXTURE_NAMES.flatMap fun tex =>
    BUCKET_NAMES.map fun bkt =>
      (tex ++ "|" ++ bkt,
        ((FB_DEFAULTS.lookup bkt).getD [("fold", 1/2), ("call", 1/2)]))

/-- `getStrategy` of `src/engine/postflop.js` (13-bucket revision): select
the table by the facing-bet flag and position, look the composite string key
up, and fall back to `{fold: 0.5, call: 0.5}` (facing) or `{check: 1.0}`
(not facing) when the key is absent. -/
def getStrategy (position texture bucket : String) (facingBet : Bool) : ActionDist :=
  if facingBet then
    (FACING_BET.lookup (texture ++ "|" ++ bucket)).getD [("fold", 1/2), ("call", 1/2)]
  else if position = "OOP" then
    (OOP_STRATEGY.lookup ("OOP|" ++ texture ++ "|" ++ bucket)).getD [("check", 1)]
  else
    (IP_VS_CHECK.lookup ("IP|" ++ texture ++ "|" ++ bucket)).getD [("check", 1)]

/-- The stable descending sort of the strategy's entries by probability
(`Object.entries(strategy).sort((a, b) => b[1] - a[1])`; JavaScript's sort
is stable, as is insertion sort with a non-strict comparison). -/
def sortedByProbDesc (strategy : ActionDist) : List (String × ℚ) :=
  (strategy : List (String × ℚ)).insertionSort fun a b => b.2 ≤ a.2

/-- `getCorrectActions` of `src/engine/postflop.js`: the top action alone if
it carries ≥ 50%, else the top action plus the second when the second
carries ≥ 25%. On an empty distribution the source's destructuring of
`sorted[0]` throws, modelled as `none`. -/
def getCorrectActions (strategy : ActionDist) : Option (List String) :=
  match sortedByProbDesc strategy with
  | [] => none
  | (bestAction, bestProb) :: rest =>
    if bestProb ≥ 1/2 then some [bestAction]
    else
      match rest with
      | (secondAction, secondProb) :: _ =>
        if secondProb ≥ 1/4 then some [bestAction, secondAction]
        else some [bestAction]
      | [] => some [bestAction]

/-! ## Canonical hand keys and the range tracker

Embeds `src/engine/rangeTracker.js` and the key grid / preflop range tables
of `src/engine/ranges.js`. Hand keys stay `String`s (`"AA"`, `"AKs"`,
`"AKo"`), as in the source; a range is the association list of all 169 keys
with their weights, in grid order. -/

/-- `RANKS.indexOf(c)` of `src/engine/evaluator.js` (`"23456789TJQKA"`). -/
def rankOfChar (c : Char) : Nat := "23456789TJQKA".toList.indexOf c

/-- `expandHandKey` of `src/engine/rangeTracker.js`: a pocket-pair key
(length 2) yields the 6 distinct-suit combinations, a suited key the 4
same-suit combinations, anything else the 12 distinct-suit ordered
combinations. Suit indices follow the source's `SUITS = ['h','d','c','s']`. -/
def expandHandKey (handKey : String) : List (Card × Card) :=
  let cs := handKey.toList
  if cs.length = 2 then
    let r := rankOfChar (cs.getD 0 ' ')
    (List.range 4).flatMap fun i =>
      ((List.range 4).drop (i + 1)).map fun j =>
        ((⟨r, i⟩ : Card), (⟨r, j⟩ : Card))
  else if cs.getD 2 ' ' = 's' then
    let r1 := rankOfChar (cs.getD 0 ' ')
    let r2 := rankOfChar (cs.getD 1 ' ')
    (List.range 4).map fun s => ((⟨r1, s⟩ : Card), (⟨r2, s⟩ : Card))
  else
    let r1 := rankOfChar (cs.getD 0 ' ')
    let r2 := rankOfChar (cs.getD 1 ' ')
    (List.range 4).flatMap fun i =>
      ((List.range 4).filter fun j => j ≠ i).map fun j =>
        ((⟨r1, i⟩ : Card), (⟨r2, j⟩ : Card))

/-- `RANKS_DISPLAY` of `src/engine/ranges.js`. -/
def RANKS_DISPLAY : List Char :=
  ['A', 'K', 'Q', 'J', 'T', '9', '8', '7', '6', '5', '4', '3', '2']

/-- `buildGrid` of `src/engine/ranges.js`: the 13 × 13 grid of canonical
hand keys (pairs on the diagonal, suited above, offsuit below). -/
def buildGrid : List (List String) :=
  (List.range 13).map fun i =>
    (List.range 13).map fun j =>
      let r1 := RANKS_DISPLAY.getD i ' '
      let r2 := RANKS_DISPLAY.getD j ' '
      if i = j then String.mk [r1, r2]
      else if i < j then String.mk [r1, r2, 's']
      else String.mk [r2, r1, 'o']

/-- `allHandKeys` of `src/engine/rangeTracker.js`: the grid flattened
row-by-row into the 169 canonical keys. -/
def allHandKeys : List String := buildGrid.flatten

/-- The `UTG` opening range of `RFI_RANGES` in `src/engine/ranges.js`. -/
def RFI_UTG : List String :=
  ["AA", "KK", "QQ", "JJ", "TT", "99", "88", "77", "66",
   "AKs", "AQs", "AJs", "ATs", "A5s", "A4s",
   "KQs", "KJs", "KTs", "QJs", "QTs", "JTs", "T9s", "98s",
   "AKo", "AQo"]

/-- The `MP` opening range of `RFI_RANGES`. -/
def RFI_MP : List String :=
  ["AA", "KK", "QQ", "JJ", "TT", "99", "88", "77", "66", "55",
   "AKs", "AQs", "AJs", "ATs", "A9s", "A5s", "A4s", "A3s",
   "KQs", "KJs", "KTs", "K9s", "QJs", "QTs", "Q9s",
   "JTs", "J9s", "T9s", "98s", "87s",
   "AKo", "AQo", "AJo"]

/-- The `CO` opening range of `RFI_RANGES`. -/
def RFI_CO : List String :=
  ["AA", "KK", "QQ", "JJ", "TT", "99", "88", "77", "66", "55", "44", "33", "22",
   "AKs", "AQs", "AJs", "ATs", "A9s", "A8s", "A7s", "A6s", "A5s", "A4s", "A3s", "A2s",
   "KQs", "KJs", "KTs", "K9s", "K8s",
   "QJs", "QTs", "Q9s", "JTs", "J9s", "J8s",
   "T9s", "T8s", "98s", "97s", "87s", "86s",
   "76s", "75s", "65s", "64s", "54s",
   "AKo", "AQo", "AJo", "ATo", "KQo", "KJo"]

/-- The `BTN` opening range of `RFI_RANGES`. -/
def RFI_BTN : List String :=
  ["AA", "KK", "QQ", "JJ", "TT", "99", "88", "77", "66", "55", "44", "33", "22",
   "AKs", "AQs", "AJs", "ATs", "A9s", "A8s", "A7s", "A6s", "A5s", "A4s", "A3s", "A2s",
   "KQs", "KJs", "KTs", "K9s", "K8s", "K7s", "K6s", "K5s",
   "QJs", "QTs", "Q9s", "Q8s", "Q7s",
   "JTs", "J9s", "J8s", "J7s", "T9s", "T8s", "T7s",
   "98s", "97s", "96s", "87s", "86s", "85s",
   "76s", "75s", "65s", "64s", "54s", "53s", "43s",
   "AKo", "AQo", "AJo", "ATo", "A9o", "A8o", "A7o",
   "KQo", "KJo", "KTo", "K9o", "QJo", "QTo",
   "JTo", "J9o", "T9o", "98o"]

/-- The `SB` opening range of `RFI_RANGES`. -/
def RFI_SB : List String :=
  ["AA", "KK", "QQ", "JJ", "TT", "99", "88", "77", "66", "55", "44", "33", "22",
   "AKs", "AQs", "AJs", "ATs", "A9s", "A8s", "A7s", "A6s", "A5s", "A4s", "A3s", "A2s",
   "KQs", "KJs", "KTs", "K9s", "K8s", "K7s", "K6s", "K5s", "K4s",
   "QJs", "QTs", "Q9s", "Q8s", "Q7s", "Q6s",
   "JTs", "J9s", "J8s", "J7s", "T9s", "T8s", "T7s",
   "98s", "97s", "96s", "87s", "86s",
   "76s", "75s", "65s", "64s", "54s", "53s", "43s",
   "AKo", "AQo", "AJo", "ATo", "A9o", "A8o", "A7o", "A6o",
   "KQo", "KJo", "KTo", "K9o", "QJo", "QTo", "Q9o",
   "JTo", "J9o", "T9o", "98o"]

/-- `RFI_RANGES` as a lookup: only `UTG`, `MP`, `CO`, `BTN` and `SB` have
opening ranges; every other position label (notably `BB`) is absent. -/
def RFI_RANGES (position : String) : Option (List String) :=
  if position = "UTG" then some RFI_UTG
  else if position = "MP" then some RFI_MP
  else if position = "CO" then some RFI_CO
  else if position = "BTN" then some RFI_BTN
  else if position = "SB" then some RFI_SB
  else none

/-- `initVillainRange` of `src/engine/rangeTracker.js`: a position with no
opening-range table silently falls back to `BTN`; each of the 169 keys gets
weight 1.0 when in the chosen range and 0 otherwise. -/
def initVillainRange (position : String) : List (String × ℚ) :=
  let rfiPos := if (RFI_RANGES position).isSome then position else "BTN"
  let rfi := (RFI_RANGES rfiPos).getD []
  allHandKeys.map fun key => (key, if rfi.contains key then (1 : ℚ) else 0)

/-- `narrowPreflop` of `src/engine/rangeTracker.js`. The static
`FACING_OPEN` table (a data table keyed by `villain|opener`, giving the
call-range and 3-bet-range sets) is passed explicitly. -/
def narrowPreflop (facingOpen : String → Option (List String × List String))
    (range : List (String × ℚ)) (villainPos action : String)
    (openerPos : Option String) : List (String × ℚ) :=
  if action = "fold" then range.map fun p => (p.1, 0)
  else
    let targetSet : Option (List String) :=
      if action = "raise" ∧ openerPos = none then
        let rfiPos := if (RFI_RANGES villainPos).isSome then villainPos else "BTN"
        some ((RFI_RANGES rfiPos).getD [])
      else if action = "call" ∧ openerPos.isSome then
        (facingOpen (villainPos ++ "|" ++ openerPos.getD "")).map Prod.fst
      else if action = "raise" ∧ openerPos.isSome then
        (facingOpen (villainPos ++ "|" ++ openerPos.getD "")).map Prod.snd
      else none
    match targetSet with
    | none => range
    | some ts => range.map fun p => (p.1, if ts.contains p.1 then (1 : ℚ) else 0)

/-- The `NOISE` constant of `src/engine/rangeTracker.js`. -/
def NOISE : ℚ := 3/10

/-- The `randomActions` list of `narrowPostflop`. -/
def narrowRandomActions (facingBet : Bool) : List String :=
  if facingBet then ["call", "fold", "raise"] else ["check", "bet_m"]

/-- The `pRandom` term of `narrowPostflop`: the uniform probability over the
model's random-action list, but only when the observed action is one of
those actions and the noise weight is positive. -/
def pRandomOf (action : String) (facingBet : Bool) (noise : ℚ) : ℚ :=
  let randomActions := narrowRandomActions facingBet
  if noise > 0 ∧ randomActions.contains action then
    1 / (randomActions.length : ℚ)
  else 0

/-- The combinations of a key that use no blocked card
(`combos.filter(([c1, c2]) => !blocked.has(c1) && !blocked.has(c2))`). -/
def survivingCombos (handKey : String) (blockedCards : List Card) :
    List (Card × Card) :=
  (expandHandKey handKey).filter fun p =>
    !(blockedCards.contains p.1) && !(blockedCards.contains p.2)

/-- The average, over the given combinations, of the strategy probability of
the observed action (`totalProb / validCombos.length`). -/
def avgGtoProb (combos : List (Card × Card)) (boardStrs : List Card)
    (texture : Texture) (posLabel action : String) (facingBet : Bool) : ℚ :=
  (combos.map fun p =>
    let bucket := classifyHand [p.1, p.2] boardStrs texture
    let strategy := getStrategy posLabel (textureName texture) (bucketName bucket) facingBet
    (((strategy : List (String × ℚ)).lookup action).getD 0)).sum
    / (combos.length : ℚ)

/-- The per-key weight-update loop of `narrowPostflop` (everything before
the final normalization): keys at weight ≤ 0 are skipped, fully blocked
keys drop to 0, and every other key is multiplied by
`max((1 - noise) * avgGtoProb + noise * pRandom, 0.001)`. -/
def narrowPostflopRaw (range : List (String × ℚ)) (boardStrs : List Card)
    (blockedCards : List Card) (posLabel action : String) (facingBet : Bool)
    (noise : ℚ) : List (String × ℚ) :=
  let texture := classifyTexture boardStrs
  let pRandom := pRandomOf action facingBet noise
  range.map fun p =>
    if p.2 ≤ 0 then p
    else
      let validCombos := survivingCombos p.1 blockedCards
      if validCombos.length = 0 then (p.1, 0)
      else
        let avg := avgGtoProb validCombos boardStrs texture posLabel action facingBet
        let pEffective := (1 - noise) * avg + noise * pRandom
        (p.1, p.2 * max pEffective (1/1000))

/-- The `maxWeight` accumulated by the loop of `narrowPostflop`: the source
tracks the maximum over the newly set weights only, which coincides with
the maximum (against the initial 0) over all weights of the updated list,
since skipped keys sit at weight ≤ 0. -/
def maxWeightOf (range : List (String × ℚ)) : ℚ :=
  (range.map Prod.snd).foldr max 0

/-- `narrowPostflop` of `src/engine/rangeTracker.js`: a fold zeroes the
whole range; otherwise the per-key update runs and, when the resulting
maximum weight is positive, every positive weight is divided by it. -/
def narrowPostflop (range : List (String × ℚ)) (boardStrs : List Card)
    (blockedCards : List Card) (posLabel action : String) (facingBet : Bool)
    (noise : ℚ) : List (String × ℚ) :=
  if action = "fold" then range.map fun p => (p.1, 0)
  else
    let updated := narrowPostflopRaw range boardStrs blockedCards posLabel action facingBet noise
    let maxWeight := maxWeightOf updated
    if maxWeight > 0 then
      updated.map fun p => (p.1, if p.2 > 0 then p.2 / maxWeight else p.2)
    else updated

/-! ## Betting state machine

Embeds the sizing constants and `applyBetAmount` of
`src/engine/simulate.js`, and the multiway betting machine of
`src/ui/simulate.js` (`mwApplyAction`, `mwEndHand`, and the action-queue
maintenance of `mwRunUntilHero` / `mwProcessHeroAction`). Chip amounts are
rationals; `Math.round(x * 10) / 10` is `roundTenth` (`Math.round` rounds
half towards +∞, as does Mathlib's `round`). Players are indexed by their
list position; display-only player fields (card objects, the estimated
range shown in the UI) are not part of the state, and log entries keep the
actor and a description tag without the formatted amount text. -/

/-- `Math.round(q * 10) / 10`. -/
def roundTenth (q : ℚ) : ℚ := ((round (q * 10) : ℤ) : ℚ) / 10

/-- `OPEN_RAISE` of `src/engine/simulate.js`: 2.5 big blinds. -/
def OPEN_RAISE : ℚ := 5/2

/-- `THREE_BET` of `src/engine/simulate.js`: 8.0 big blinds. -/
def THREE_BET : ℚ := 8

/-- `BET_SIZES` of `src/engine/simulate.js`. -/
def BET_SIZES : List (String × ℚ) :=
  [("bet_s", 33/100), ("bet_m", 66/100), ("bet_l", 1)]

/-- `applyBetAmount` of `src/engine/simulate.js`: pot fraction by bet size
(rounded to a tenth of a big blind), 75% pot for a bare `raise`, else 0. -/
def applyBetAmount (pot : ℚ) (action : String) : ℚ :=
  match BET_SIZES.lookup action with
  | some size => roundTenth (pot * size)
  | none => if action = "raise" then roundTenth (pot * (3/4)) else 0

/-- A player of the multiway machine (the fields of `generateMultiwayHand`'s
player objects that the betting logic reads or writes). -/
structure MWPlayer where
  idx : Nat
  position : String
  hand_key : String
  stack : ℚ
  folded : Bool
  street_invested : ℚ
  total_invested : ℚ
  is_hero : Bool
deriving DecidableEq, Repr

instance : Inhabited MWPlayer := ⟨⟨0, "", "", 0, false, 0, 0, false⟩⟩

/-- A `session_log` record pushed by `mwEndHand`. -/
structure SessionEntry where
  hand_num : Nat
  hero_hand_key : String
  result_bb : ℚ
  actions : List (String × String)
deriving DecidableEq, Repr

/-- The multiway hand state (the fields of `generateMultiwayHand`'s state
object that the betting logic reads or writes). -/
structure MWState where
  num_players : Nat
  players : List MWPlayer
  hero_idx : Nat
  pot : ℚ
  street : String
  current_bet : ℚ
  last_raiser_idx : Int
  opener_idx : Int
  action_queue : List Nat
  action_queue_pos : Nat
  sim_phase : String
  hand_over : Bool
  winner_idx : Int
  winner_idxs : List Nat
  hand_number : Nat
  session_log : List SessionEntry
  current_hand_actions : List (String × String)
  action_log : List (String × String)
deriving Repr

/-- In-place mutation of `players[i]` (a no-op when `i` is out of range,
where the source would throw). -/
def updatePlayer (ps : List MWPlayer) (i : Nat) (f : MWPlayer → MWPlayer) :
    List MWPlayer :=
  ps.set i (f (ps.getD i default))

/-- `mwActivePlayers`: the non-folded players. -/
def mwActivePlayers (s : MWState) : List MWPlayer :=
  s.players.filter fun p => !p.folded

/-- `mwLogAction`: append an (actor, description) entry to the action log. -/
def mwLogAction (s : MWState) (actorName description : String) : MWState :=
  {s with action_log := s.action_log ++ [(actorName, description)]}

/-- `mwEndHand` of `src/ui/simulate.js`: mark the hand over, split the pot
evenly among the winners' stacks (the pot field itself is not cleared), and
push the hero's session-log record. -/
def mwEndHand (s : MWState) (winnerIdxs : List Nat) (fold : Bool) : MWState :=
  let hero := s.players.getD s.hero_idx default
  let share : ℚ :=
    if winnerIdxs.contains s.hero_idx then s.pot / (winnerIdxs.length : ℚ) else 0
  let winAmount := share - hero.total_invested
  let perPlayer : ℚ := s.pot / (winnerIdxs.length : ℚ)
  let players :=
    if winnerIdxs.length > 0 then
      winnerIdxs.foldl
        (fun ps i => updatePlayer ps i fun p => {p with stack := p.stack + perPlayer})
        s.players
    else s.players
  {s with
    hand_over := true,
    winner_idxs := winnerIdxs,
    winner_idx := Int.ofNat (winnerIdxs.headD 0),
    players := players,
    sim_phase := if fold then "hand_over" else "showdown",
    session_log := s.session_log ++
      [⟨s.hand_number, hero.hand_key, roundTenth winAmount, s.current_hand_actions⟩]}

/-- The target bet level computed by the bet/raise branch of
`mwApplyAction`: preflop it is the fixed open (2.5 bb) or the fixed
re-raise (8 bb); postflop it is `applyBetAmount`, raised to at least
2.5 × the current bet when one is outstanding. -/
def mwBetTarget (s : MWState) (action : String) : ℚ :=
  if s.street = "preflop" then
    if s.current_bet > 0 ∧ s.last_raiser_idx ≥ 0 then THREE_BET else OPEN_RAISE
  else
    let betAmount := applyBetAmount s.pot action
    if s.current_bet > 0 then max betAmount (s.current_bet * (5/2)) else betAmount

/-- `action.includes('bet')` (used only to pick the log wording). -/
def mentionsBet (action : String) : Bool :=
  (action.splitOn "bet").length ≥ 2

/-- `mwApplyAction` of `src/ui/simulate.js`: fold marks the player folded
and ends the hand if one active player remains; call moves
`min(current_bet - street_invested, stack)`; check only logs; anything else
is a bet/raise moving `min(target - street_invested, stack)`, setting the
current bet to the player's new street investment and recording the
aggressor (and the preflop opener, when unset). -/
def mwApplyAction (s : MWState) (playerIdx : Nat) (action actorName : String) :
    MWState :=
  let player := s.players.getD playerIdx default
  if action = "fold" then
    let s := {s with players := updatePlayer s.players playerIdx fun p => {p with folded := true}}
    let s := mwLogAction s actorName "folds"
    let active := mwActivePlayers s
    if active.length = 1 then mwEndHand s [(active.getD 0 default).idx] true
    else s
  else if action = "call" then
    let callAmount := min (s.current_bet - player.street_invested) player.stack
    let s := {s with
      players := updatePlayer s.players playerIdx fun p =>
        {p with
          stack := p.stack - callAmount,
          total_invested := p.total_invested + callAmount,
          street_invested := p.street_invested + callAmount},
      pot := s.pot + callAmount}
    mwLogAction s actorName "calls"
  else if action = "check" then
    mwLogAction s actorName "checks"
  else
    let betAmount := mwBetTarget s action
    let additional := min (betAmount - player.street_invested) player.stack
    let s := {s with
      players := updatePlayer s.players playerIdx fun p =>
        {p with
          stack := p.stack - additional,
          total_invested := p.total_invested + additional,
          street_invested := p.street_invested + additional},
      pot := s.pot + additional,
      current_bet := player.street_invested + additional,
      opener_idx :=
        if s.street = "preflop" ∧ s.opener_idx < 0 then Int.ofNat playerIdx
        else s.opener_idx,
      last_raiser_idx := Int.ofNat playerIdx}
    mwLogAction s actorName (if mentionsBet action then "bets" else "raises")

/-- The queue rebuilt after a raise by the player at `aggressorIdx` inside
`mwRunUntilHero`: every index `(aggressorIdx + i) % n` for `i = 1 … n - 1`
that is neither folded nor the aggressor, in clockwise order. -/
def mwRebuildQueue (players : List MWPlayer) (n aggressorIdx : Nat) : List Nat :=
  ((List.range' 1 (n - 1)).map fun i => (aggressorIdx + i) % n).filter fun idx =>
    !(players.getD idx default).folded && idx ≠ aggressorIdx

/-- The queue rebuilt after a hero raise inside `mwProcessHeroAction`
(the source omits the redundant `idx ≠ hero` test there). -/
def mwRebuildQueueHero (players : List MWPlayer) (n heroIdx : Nat) : List Nat :=
  ((List.range' 1 (n - 1)).map fun i => (heroIdx + i) % n).filter fun idx =>
    !(players.getD idx default).folded

/-- One iteration of the villain loop of `mwRunUntilHero` for the non-folded
non-hero player `currentIdx`, who takes `action` (the random policy choice
is injected; the narrowing of the on-screen range estimate, which touches no
betting state, is not modelled): apply the action, then — unless the hand
ended — rebuild the queue from the aggressor if this villain just raised,
else advance the queue position. -/
def mwVillainStep (s : MWState) (currentIdx : Nat) (action actorName : String) :
    MWState :=
  let s := mwApplyAction s currentIdx action actorName
  if s.hand_over then s
  else if s.last_raiser_idx = Int.ofNat currentIdx then
    {s with
      action_queue := mwRebuildQueue s.players s.num_players currentIdx,
      action_queue_pos := 0}
  else
    {s with action_queue_pos := s.action_queue_pos + 1}

/-- `mwProcessHeroAction` of `src/ui/simulate.js` up to (and excluding) its
trailing `mwRunUntilHero` continuation: record the hero action (the advisory
`gto_action` / `deviation` fields, which touch no betting state, are not
modelled), apply it, and — unless the hand ended — rebuild the queue when
the hero became the (new) last aggressor, else advance the queue position. -/
def mwProcessHeroActionCore (s : MWState) (heroAction : String) : MWState :=
  let hero := s.players.getD s.hero_idx default
  let actorName := "Hero (" ++ hero.position ++ ")"
  let s := {s with
    current_hand_actions := s.current_hand_actions ++ [(s.street, heroAction)]}
  let wasRaiser := s.last_raiser_idx
  let s := mwApplyAction s s.hero_idx heroAction actorName
  if s.hand_over then s
  else if s.last_raiser_idx = Int.ofNat s.hero_idx ∧ s.last_raiser_idx ≠ wasRaiser then
    {s with
      action_queue := mwRebuildQueueHero s.players s.num_players s.hero_idx,
      action_queue_pos := 0}
  else
    {s with action_queue_pos := s.action_queue_pos + 1}

/-! ## Claim theorems -/

/-- Every bucket is listed in `BUCKETS`. -/
theorem bucket_mem_BUCKETS (b : Bucket) : b ∈ BUCKETS := by
  cases b <;> simp [BUCKETS]

/-- Every texture is listed in `TEXTURES`. -/
theorem texture_mem_TEXTURES (t : Texture) : t ∈ TEXTURES := by
  cases t <;> simp [TEXTURES]

/-- C1: for every 2-card hand and 3-to-5-card board (and any texture),
`classifyHand` returns exactly one of the 13 bucket values `premium, nut,
strong, two_pair, top_pair, overpair, mid_pair, underpair, nut_draw, draw,
weak_made, gutshot, air` — the classifier is total over the closed
13-value `BUCKETS` enumeration. -/
theorem classifyHand_returns_bucket (hand board : List Card) (texture : Texture)
    (hhand : hand.length = 2) (hlo : 3 ≤ board.length) (hhi : board.length ≤ 5) :
    classifyHand hand board texture ∈ BUCKETS :=
  bucket_mem_BUCKETS _

/-- Witness for C1 at a concrete hand and flop. -/
theorem classifyHand_returns_bucket_witness :
    ([(⟨12, 3⟩ : Card), ⟨12, 0⟩].length = 2 ∧
      3 ≤ [(⟨12, 2⟩ : Card), ⟨11, 1⟩, ⟨5, 0⟩].length ∧
      [(⟨12, 2⟩ : Card), ⟨11, 1⟩, ⟨5, 0⟩].length ≤ 5) ∧
    classifyHand [⟨12, 3⟩, ⟨12, 0⟩] [⟨12, 2⟩, ⟨11, 1⟩, ⟨5, 0⟩] Texture.high_dry_A ∈ BUCKETS :=
  ⟨by decide,
   classifyHand_returns_bucket [⟨12, 3⟩, ⟨12, 0⟩] [⟨12, 2⟩, ⟨11, 1⟩, ⟨5, 0⟩]
     Texture.high_dry_A (by decide) (by decide) (by decide)⟩

theorem countP_perm {l₁ l₂ : List Card} (h : l₁.Perm l₂) (p : Card → Bool) :
    l₁.countP p = l₂.countP p :=
  h.countP_eq p

theorem maxSuitCount_perm {l₁ l₂ : List Card} (h : l₁.Perm l₂) :
    maxSuitCount l₁ = maxSuitCount l₂ := by
  unfold maxSuitCount
  congr 1
  exact List.map_congr_left fun s _ => countP_perm h _

theorem maxRankCount_perm {l₁ l₂ : List Card} (h : l₁.Perm l₂) :
    maxRankCount l₁ = maxRankCount l₂ := by
  unfold maxRankCount
  congr 1
  exact List.map_congr_left fun s _ => countP_perm h _

theorem sortedBoardRanks_perm {l₁ l₂ : List Card} (h : l₁.Perm l₂) :
    sortedBoardRanks l₁ = sortedBoardRanks l₂ := by
  unfold sortedBoardRanks
  have h₁ : List.Sorted (· ≤ ·) ((l₁.map Card.rank).insertionSort (· ≤ ·)) :=
    List.sorted_insertionSort _ _
  have h₂ : List.Sorted (· ≤ ·) ((l₂.map Card.rank).insertionSort (· ≤ ·)) :=
    List.sorted_insertionSort _ _
  have hp : ((l₁.map Card.rank).insertionSort (· ≤ ·)).Perm
      ((l₂.map Card.rank).insertionSort (· ≤ ·)) :=
    (List.perm_insertionSort _ _).trans
      ((h.map Card.rank).trans (List.perm_insertionSort _ _).symm)
  exact List.eq_of_perm_of_sorted hp h₁ h₂

theorem foldr_max_perm {l₁ l₂ : List Nat} (h : l₁.Perm l₂) :
    l₁.foldr max 0 = l₂.foldr max 0 := by
  induction h with
  | nil => rfl
  | cons x _ ih => simp [List.foldr_cons, ih]
  | swap x y l => simp [List.foldr_cons]; rw [← max_assoc, max_comm y x, max_assoc]
  | trans _ _ ih₁ ih₂ => rw [ih₁, ih₂]

theorem highestRank_perm {l₁ l₂ : List Card} (h : l₁.Perm l₂) :
    highestRank l₁ = highestRank l₂ :=
  foldr_max_perm (h.map Card.rank)

/-- C2: for every 3-card board, `classifyTexture` is total over the closed
8-value `TEXTURES` enumeration and is invariant under permutation of the
board cards. -/
theorem classifyTexture_total_perm (board board' : List Card)
    (hlen : board.length = 3) (hperm : board.Perm board') :
    classifyTexture board ∈ TEXTURES ∧
      classifyTexture board = classifyTexture board' := by
  refine ⟨texture_mem_TEXTURES _, ?_⟩
  unfold classifyTexture maxGap
  rw [maxSuitCount_perm hperm, maxRankCount_perm hperm,
    sortedBoardRanks_perm hperm, highestRank_perm hperm]

/-- Witness for C2 at a concrete flop and a rotation of it. -/
theorem classifyTexture_total_perm_witness :
    ([(⟨11, 2⟩ : Card), ⟨3, 1⟩, ⟨0, 3⟩].length = 3 ∧
      ([(⟨11, 2⟩ : Card), ⟨3, 1⟩, ⟨0, 3⟩]).Perm [⟨0, 3⟩, ⟨11, 2⟩, ⟨3, 1⟩]) ∧
    classifyTexture [⟨11, 2⟩, ⟨3, 1⟩, ⟨0, 3⟩] ∈ TEXTURES ∧
      classifyTexture [⟨11, 2⟩, ⟨3, 1⟩, ⟨0, 3⟩] =
        classifyTexture [⟨0, 3⟩, ⟨11, 2⟩, ⟨3, 1⟩] :=
  ⟨⟨by decide, by decide⟩,
   classifyTexture_total_perm _ _ (by decide) (by decide)⟩

instance : IsTotal (String × ℚ) (fun a b => b.2 ≤ a.2) :=
  ⟨fun a b => le_total b.2 a.2⟩

instance : IsTrans (String × ℚ) (fun a b => b.2 ≤ a.2) :=
  ⟨fun _ _ _ hab hbc => le_trans hbc hab⟩

/-- The property C7 asserts of `getCorrectActions` on a distribution: the
sorted entries start with an action of maximal probability, and the result
is exactly that top action alone when it carries ≥ 1/2 or when no second
entry carries ≥ 1/4, and the top two actions otherwise — in particular the
result exists, has one or two elements and is led by the top action. -/
def CorrectActionsSpec (strategy : ActionDist) : Prop :=
  ∃ best rest, sortedByProbDesc strategy = best :: rest ∧
    (∀ p ∈ strategy, p.2 ≤ best.2) ∧
    getCorrectActions strategy = some
      (if (1 : ℚ)/2 ≤ best.2 then [best.1]
       else rest.head?.elim [best.1] fun second =>
         if (1 : ℚ)/4 ≤ second.2 then [best.1, second.1] else [best.1]) ∧
    ∀ l, getCorrectActions strategy = some l →
      l.headD "" = best.1 ∧ 1 ≤ l.length ∧ l.length ≤ 2

/-- C7: on every non-empty distribution, `getCorrectActions` returns the
single highest-probability action when it carries at least 0.50, and
otherwise the top action plus the second-ranked action exactly when the
second carries at least 0.25; the result always has one or two elements and
is led by the highest-probability action. -/
theorem getCorrectActions_spec (strategy : ActionDist)
    (hne : strategy ≠ ([] : ActionDist)) :
    CorrectActionsSpec strategy := by
  have hperm : (sortedByProbDesc strategy).Perm strategy := List.perm_insertionSort _ _
  have hsorted : List.Sorted (fun a b : String × ℚ => b.2 ≤ a.2)
      (sortedByProbDesc strategy) := List.sorted_insertionSort _ _
  cases hs : sortedByProbDesc strategy with
  | nil => exact absurd (hs ▸ hperm).symm.eq_nil hne
  | cons best rest =>
    obtain ⟨ba, bp⟩ := best
    have hE : getCorrectActions strategy = some
        (if (1 : ℚ)/2 ≤ bp then [ba]
         else rest.head?.elim [ba] fun second =>
           if (1 : ℚ)/4 ≤ second.2 then [ba, second.1] else [ba]) := by
      simp only [getCorrectActions, hs, ge_iff_le]
      cases rest with
      | nil => split_ifs <;> rfl
      | cons second r2 =>
        obtain ⟨sa, sp⟩ := second
        simp only [List.head?, Option.elim]
        split_ifs <;> rfl
    refine ⟨(ba, bp), rest, hs, ?_, hE, ?_⟩
    · intro p hp
      have hmem : p ∈ (ba, bp) :: rest := hs ▸ hperm.mem_iff.mpr hp
      rcases List.mem_cons.mp hmem with h | h
      · exact le_of_eq (congrArg Prod.snd h)
      · exact List.rel_of_sorted_cons (hs ▸ hsorted) p h
    · intro l hl
      rw [hE] at hl
      cases hl
      cases rest with
      | nil => split_ifs <;> simp
      | cons second r2 =>
        simp only [List.head?, Option.elim]
        split_ifs <;> simp

/-- Witness for C7 at a concrete mixed distribution. -/
theorem getCorrectActions_spec_witness :
    CorrectActionsSpec [("check", (2 : ℚ)/5), ("bet_m", (2 : ℚ)/5), ("bet_l", (1 : ℚ)/5)] :=
  getCorrectActions_spec _ (by decide)

/-- C8: `expandHandKey` returns exactly 6 combinations for a pocket-pair key
`"rr"`, exactly 4 for a suited key `"r₁r₂s"` and exactly 12 for an offsuit
key `"r₁r₂c"` (any third character other than `'s'`); every combination
carries the key's ranks, pair and offsuit combinations use two different
suits, and suited combinations use one suit. -/
theorem expandHandKey_combos (a b c : Char) (hc : c ≠ 's') :
    ((expandHandKey (String.mk [a, a])).length = 6 ∧
      ∀ p ∈ expandHandKey (String.mk [a, a]),
        p.1.rank = rankOfChar a ∧ p.2.rank = rankOfChar a ∧ p.1.suit ≠ p.2.suit) ∧
    ((expandHandKey (String.mk [a, b, 's'])).length = 4 ∧
      ∀ p ∈ expandHandKey (String.mk [a, b, 's']),
        p.1.rank = rankOfChar a ∧ p.2.rank = rankOfChar b ∧ p.1.suit = p.2.suit) ∧
    ((expandHandKey (String.mk [a, b, c])).length = 12 ∧
      ∀ p ∈ expandHandKey (String.mk [a, b, c]),
        p.1.rank = rankOfChar a ∧ p.2.rank = rankOfChar b ∧ p.1.suit ≠ p.2.suit) := by
  have hpair : expandHandKey (String.mk [a, a]) =
      [(⟨rankOfChar a, 0⟩, ⟨rankOfChar a, 1⟩), (⟨rankOfChar a, 0⟩, ⟨rankOfChar a, 2⟩),
       (⟨rankOfChar a, 0⟩, ⟨rankOfChar a, 3⟩), (⟨rankOfChar a, 1⟩, ⟨rankOfChar a, 2⟩),
       (⟨rankOfChar a, 1⟩, ⟨rankOfChar a, 3⟩), (⟨rankOfChar a, 2⟩, ⟨rankOfChar a, 3⟩)] := rfl
  have hsuited : expandHandKey (String.mk [a, b, 's']) =
      [(⟨rankOfChar a, 0⟩, ⟨rankOfChar b, 0⟩), (⟨rankOfChar a, 1⟩, ⟨rankOfChar b, 1⟩),
       (⟨rankOfChar a, 2⟩, ⟨rankOfChar b, 2⟩), (⟨rankOfChar a, 3⟩, ⟨rankOfChar b, 3⟩)] := rfl
  have hoff : expandHandKey (String.mk [a, b, c]) =
      [(⟨rankOfChar a, 0⟩, ⟨rankOfChar b, 1⟩), (⟨rankOfChar a, 0⟩, ⟨rankOfChar b, 2⟩),
       (⟨rankOfChar a, 0⟩, ⟨rankOfChar b, 3⟩), (⟨rankOfChar a, 1⟩, ⟨rankOfChar b, 0⟩),
       (⟨rankOfChar a, 1⟩, ⟨rankOfChar b, 2⟩), (⟨rankOfChar a, 1⟩, ⟨rankOfChar b, 3⟩),
       (⟨rankOfChar a, 2⟩, ⟨rankOfChar b, 0⟩), (⟨rankOfChar a, 2⟩, ⟨rankOfChar b, 1⟩),
       (⟨rankOfChar a, 2⟩, ⟨rankOfChar b, 3⟩), (⟨rankOfChar a, 3⟩, ⟨rankOfChar b, 0⟩),
       (⟨rankOfChar a, 3⟩, ⟨rankOfChar b, 1⟩), (⟨rankOfChar a, 3⟩, ⟨rankOfChar b, 2⟩)] := by
    unfold expandHandKey
    have h1 : ¬((String.mk [a, b, c]).toList.length = 2) := by simp [String.toList]
    rw [if_neg h1]
    have h2 : ¬((String.mk [a, b, c]).toList.getD 2 ' ' = 's') := by
      simpa [String.toList] using hc
    rw [if_neg h2]
    rfl
  refine ⟨⟨by rw [hpair]; rfl, ?_⟩, ⟨by rw [hsuited]; rfl, ?_⟩, ⟨by rw [hoff]; rfl, ?_⟩⟩
  · intro p hp
    rw [hpair] at hp
    fin_cases hp <;> exact ⟨rfl, rfl, by simp⟩
  · intro p hp
    rw [hsuited] at hp
    fin_cases hp <;> exact ⟨rfl, rfl, rfl⟩
  · intro p hp
    rw [hoff] at hp
    fin_cases hp <;> exact ⟨rfl, rfl, by simp⟩

/-- Witness for C8 at the keys `"AA"`, `"AKs"`, `"AKo"`. -/
theorem expandHandKey_combos_witness :
    (('o' : Char) ≠ 's') ∧ (expandHandKey (String.mk ['A', 'A'])).length = 6 ∧
      (expandHandKey (String.mk ['A', 'K', 's'])).length = 4 ∧
      (expandHandKey (String.mk ['A', 'K', 'o'])).length = 12 :=
  ⟨by decide, (expandHandKey_combos 'A' 'K' 'o' (by decide)).1.1,
   (expandHandKey_combos 'A' 'K' 'o' (by decide)).2.1.1,
   (expandHandKey_combos 'A' 'K' 'o' (by decide)).2.2.1⟩

/-- A successful association-list lookup returns a stored value. -/
theorem lookup_mem_values {α β : Type} [BEq α] {l : List (α × β)} {k : α} {v : β}
    (h : l.lookup k = some v) : ∃ k', (k', v) ∈ l := by
  induction l with
  | nil => simp [List.lookup] at h
  | cons p rest ih =>
    rw [List.lookup] at h
    by_cases hk : (k == p.1) = true
    · simp only [hk] at h
      cases h
      exact ⟨p.1, by cases p; exact List.mem_cons_self _ _⟩
    · have hk' : (k == p.1) = false := by simpa using hk
      simp only [hk'] at h
      obtain ⟨k', hm⟩ := ih h
      exact ⟨k', List.mem_cons_of_mem _ hm⟩

/-- Every distribution stored in the three built strategy tables is
non-empty. -/
theorem strategy_tables_entries_nonempty :
    (∀ p ∈ OOP_STRATEGY, p.2 ≠ ([] : ActionDist)) ∧
    (∀ p ∈ IP_VS_CHECK, p.2 ≠ ([] : ActionDist)) ∧
    (∀ p ∈ FACING_BET, p.2 ≠ ([] : ActionDist)) := by
  refine ⟨?_, ?_, ?_⟩ <;> decide

/-- C6: `getStrategy` is total and never errors — for every position,
texture, bucket and facing-bet flag it returns a non-empty distribution,
and whenever the composite key is absent from the selected table it
returns exactly `{fold: 0.5, call: 0.5}` (facing) or `{check: 1.0}`
(not facing). -/
theorem getStrategy_total_fallback (position texture bucket : String) :
    (getStrategy position texture bucket true ≠ ([] : ActionDist) ∧
      getStrategy position texture bucket false ≠ ([] : ActionDist)) ∧
    (FACING_BET.lookup (texture ++ "|" ++ bucket) = none →
      getStrategy position texture bucket true = [("fold", (1 : ℚ)/2), ("call", (1 : ℚ)/2)]) ∧
    (OOP_STRATEGY.lookup ("OOP|" ++ texture ++ "|" ++ bucket) = none →
      getStrategy "OOP" texture bucket false = [("check", (1 : ℚ))]) ∧
    (position ≠ "OOP" →
      IP_VS_CHECK.lookup ("IP|" ++ texture ++ "|" ++ bucket) = none →
      getStrategy position texture bucket false = [("check", (1 : ℚ))]) := by
  obtain ⟨hoop, hip, hfb⟩ := strategy_tables_entries_nonempty
  refine ⟨⟨?_, ?_⟩, ?_, ?_, ?_⟩
  · unfold getStrategy
    rw [if_pos rfl]
    cases h : FACING_BET.lookup (texture ++ "|" ++ bucket) with
    | none => simp
    | some v =>
      obtain ⟨k', hk'⟩ := lookup_mem_values h
      simpa using hfb _ hk'
  · unfold getStrategy
    rw [if_neg (by simp)]
    by_cases hpos : position = "OOP"
    · rw [if_pos hpos]
      cases h : OOP_STRATEGY.lookup ("OOP|" ++ texture ++ "|" ++ bucket) with
      | none => simp
      | some v =>
        obtain ⟨k', hk'⟩ := lookup_mem_values h
        simpa using hoop _ hk'
    · rw [if_neg hpos]
      cases h : IP_VS_CHECK.lookup ("IP|" ++ texture ++ "|" ++ bucket) with
      | none => simp
      | some v =>
        obtain ⟨k', hk'⟩ := lookup_mem_values h
        simpa using hip _ hk'
  · intro h
    unfold getStrategy
    rw [if_pos rfl, h]
    rfl
  · intro h
    unfold getStrategy
    rw [if_neg (by simp), if_pos rfl, h]
    rfl
  · intro hpos h
    unfold getStrategy
    rw [if_neg (by simp), if_neg hpos, h]
    rfl

/-- Witness for C6 at a key absent from all three tables (the pre-revision
texture/bucket names `wet` and `good`). -/
theorem getStrategy_total_fallback_witness :
    (getStrategy "IP" "wet" "good" true ≠ ([] : ActionDist) ∧
      getStrategy "IP" "wet" "good" false ≠ ([] : ActionDist)) ∧
    (FACING_BET.lookup ("wet" ++ "|" ++ "good") = none →
      getStrategy "IP" "wet" "good" true = [("fold", (1 : ℚ)/2), ("call", (1 : ℚ)/2)]) ∧
    (OOP_STRATEGY.lookup ("OOP|" ++ "wet" ++ "|" ++ "good") = none →
      getStrategy "OOP" "wet" "good" false = [("check", (1 : ℚ))]) ∧
    (("IP" : String) ≠ "OOP" →
      IP_VS_CHECK.lookup ("IP|" ++ "wet" ++ "|" ++ "good") = none →
      getStrategy "IP" "wet" "good" false = [("check", (1 : ℚ))]) :=
  getStrategy_total_fallback "IP" "wet" "good"

set_option maxRecDepth 4000 in
/-- C10: a position label with no opening-range table (such as `"BB"`)
never makes `initVillainRange` fail — it silently substitutes the `BTN`
opening range, returning all 169 keys with weight 1.0 exactly on the BTN
range; and `narrowPreflop`'s opening-raise branch applies the same BTN
substitution. -/
theorem initVillainRange_fallback (position : String)
    (h : RFI_RANGES position = none) :
    initVillainRange position =
      (allHandKeys.map fun key => (key, if RFI_BTN.contains key then (1 : ℚ) else 0)) ∧
    (initVillainRange position).length = 169 ∧
    ∀ (facingOpen : String → Option (List String × List String))
      (range : List (String × ℚ)),
      narrowPreflop facingOpen range position "raise" none =
        range.map fun p => (p.1, if RFI_BTN.contains p.1 then (1 : ℚ) else 0) := by
  have hnone : (RFI_RANGES position).isSome = false := by rw [h]; rfl
  have hbtn : RFI_RANGES "BTN" = some RFI_BTN := by rfl
  have h1 : initVillainRange position =
      (allHandKeys.map fun key => (key, if RFI_BTN.contains key then (1 : ℚ) else 0)) := by
    simp only [initVillainRange, hnone, Bool.false_eq_true, if_false, hbtn, Option.getD_some]
  refine ⟨h1, ?_, ?_⟩
  · rw [h1]
    simp only [List.length_map]
    decide
  · intro facingOpen range
    unfold narrowPreflop
    rw [if_neg (by decide)]
    simp only [hnone, Bool.false_eq_true, if_false, hbtn, Option.getD_some]
    simp

/-- Witness for C10 at the position label `"BB"`. -/
theorem initVillainRange_fallback_witness :
    initVillainRange "BB" =
      (allHandKeys.map fun key => (key, if RFI_BTN.contains key then (1 : ℚ) else 0)) ∧
    (initVillainRange "BB").length = 169 ∧
    narrowPreflop (fun _ => none) (initVillainRange "BB") "BB" "raise" none =
      ((initVillainRange "BB").map fun p =>
        (p.1, if RFI_BTN.contains p.1 then (1 : ℚ) else 0)) := by
  have h := initVillainRange_fallback "BB" (by decide)
  exact ⟨h.1, h.2.1, h.2.2 (fun _ => none) (initVillainRange "BB")⟩

/-- C4: postflop bet amounts are the fixed pot fractions 33% / 66% / 100%
(rounded to a tenth of a big blind); a postflop raise with a bet
outstanding is sized to at least 2.5 × the current bet; preflop the open is
fixed at 2.5 bb and the re-raise at the fixed larger 8 bb; and the chips
any call, bet or raise moves into the pot are clipped to the acting
player's remaining stack. -/
theorem betting_sizes_and_clipping :
    (∀ pot : ℚ,
      applyBetAmount pot "bet_s" = roundTenth (pot * (33/100)) ∧
      applyBetAmount pot "bet_m" = roundTenth (pot * (66/100)) ∧
      applyBetAmount pot "bet_l" = roundTenth (pot * 1)) ∧
    (∀ (s : MWState) (action : String), s.street ≠ "preflop" → s.current_bet > 0 →
      s.current_bet * (5/2) ≤ mwBetTarget s action) ∧
    (∀ (s : MWState) (action : String), s.street = "preflop" →
      mwBetTarget s action =
        if s.current_bet > 0 ∧ s.last_raiser_idx ≥ 0 then THREE_BET else OPEN_RAISE) ∧
    OPEN_RAISE = 5/2 ∧ OPEN_RAISE < THREE_BET ∧
    (∀ (s : MWState) (i : Nat) (action name : String),
      action ≠ "fold" → action ≠ "check" →
      (mwApplyAction s i action name).pot - s.pot ≤ (s.players.getD i default).stack) := by
  have hs : BET_SIZES.lookup "bet_s" = some ((33 : ℚ)/100) := by rfl
  have hm : BET_SIZES.lookup "bet_m" = some ((66 : ℚ)/100) := by rfl
  have hl : BET_SIZES.lookup "bet_l" = some ((1 : ℚ)) := by rfl
  refine ⟨?_, ?_, ?_, rfl, by norm_num [OPEN_RAISE, THREE_BET], ?_⟩
  · intro pot
    refine ⟨?_, ?_, ?_⟩
    · simp [applyBetAmount, hs]
    · simp [applyBetAmount, hm]
    · simp [applyBetAmount, hl]
  · intro s action hstreet hcb
    unfold mwBetTarget
    rw [if_neg hstreet, if_pos hcb]
    exact le_max_right _ _
  · intro s action hstreet
    unfold mwBetTarget
    rw [if_pos hstreet]
  · intro s i action name hfold hcheck
    unfold mwApplyAction
    rw [if_neg hfold]
    by_cases hcall : action = "call"
    · rw [if_pos hcall]
      simp only [mwLogAction]
      have : s.pot + min (s.current_bet - (s.players.getD i default).street_invested)
          (s.players.getD i default).stack - s.pot =
          min (s.current_bet - (s.players.getD i default).street_invested)
            (s.players.getD i default).stack := by ring
      rw [this]
      exact min_le_right _ _
    · rw [if_neg hcall, if_neg hcheck]
      simp only [mwLogAction]
      have : s.pot + min (mwBetTarget s action - (s.players.getD i default).street_invested)
          (s.players.getD i default).stack - s.pot =
          min (mwBetTarget s action - (s.players.getD i default).street_invested)
            (s.players.getD i default).stack := by ring
      rw [this]
      exact min_le_right _ _

/-- A concrete 3-handed flop state facing a 2 bb bet, used by the C4
witness. -/
def sampleFlopState : MWState :=
  {num_players := 3,
   players := [⟨0, "BTN", "AKo", 97, false, 0, 3, true⟩,
               ⟨1, "SB", "QQ", 95, false, 2, 5, false⟩,
               ⟨2, "BB", "T9s", 94, false, 0, 6, false⟩],
   hero_idx := 0, pot := 6, street := "flop", current_bet := 2,
   last_raiser_idx := 1, opener_idx := 1, action_queue := [0, 2],
   action_queue_pos := 0, sim_phase := "postflop_decision",
   hand_over := false, winner_idx := -1, winner_idxs := [],
   hand_number := 1, session_log := [], current_hand_actions := [],
   action_log := []}

/-- Witness for C4 at a concrete state facing a 2 bb bet on the flop. -/
theorem betting_sizes_and_clipping_witness :
    applyBetAmount 6 "bet_s" = roundTenth (6 * (33/100)) ∧
    ((2 : ℚ) * (5/2) ≤ mwBetTarget sampleFlopState "raise" ∧
      (mwApplyAction sampleFlopState 0 "raise" "Hero (BTN)").pot - sampleFlopState.pot ≤
        (sampleFlopState.players.getD 0 default).stack) := by
  have h := betting_sizes_and_clipping
  refine ⟨(h.1 6).1, ?_, ?_⟩
  · exact h.2.1 sampleFlopState "raise" (by decide) (by norm_num [sampleFlopState])
  · exact h.2.2.2.2.2 sampleFlopState 0 "raise" "Hero (BTN)" (by decide) (by decide)

/-- `mwApplyAction` on a bet/raise action, written out as one record. -/
theorem mwApplyAction_bet_eq (s : MWState) (i : Nat) (a name : String)
    (ha : a ≠ "fold") (hc : a ≠ "call") (hk : a ≠ "check") :
    mwApplyAction s i a name =
      {s with
        players := updatePlayer s.players i fun p =>
          {p with
            stack := p.stack -
              min (mwBetTarget s a - (s.players.getD i default).street_invested)
                (s.players.getD i default).stack,
            total_invested := p.total_invested +
              min (mwBetTarget s a - (s.players.getD i default).street_invested)
                (s.players.getD i default).stack,
            street_invested := p.street_invested +
              min (mwBetTarget s a - (s.players.getD i default).street_invested)
                (s.players.getD i default).stack},
        pot := s.pot +
          min (mwBetTarget s a - (s.players.getD i default).street_invested)
            (s.players.getD i default).stack,
        current_bet := (s.players.getD i default).street_invested +
          min (mwBetTarget s a - (s.players.getD i default).street_invested)
            (s.players.getD i default).stack,
        opener_idx :=
          if s.street = "preflop" ∧ s.opener_idx < 0 then Int.ofNat i else s.opener_idx,
        last_raiser_idx := Int.ofNat i,
        action_log := s.action_log ++
          [(name, if mentionsBet a then "bets" else "raises")]} := by
  unfold mwApplyAction mwLogAction
  rw [if_neg ha, if_neg hc, if_neg hk]

/-- `mwApplyAction` on a check, written out as one record. -/
theorem mwApplyAction_check_eq (s : MWState) (i : Nat) (name : String) :
    mwApplyAction s i "check" name =
      {s with action_log := s.action_log ++ [(name, "checks")]} := by
  unfold mwApplyAction mwLogAction
  rw [if_neg (by decide), if_neg (by decide), if_pos rfl]

/-- `mwApplyAction` on a call, written out as one record. -/
theorem mwApplyAction_call_eq (s : MWState) (i : Nat) (name : String) :
    mwApplyAction s i "call" name =
      {s with
        players := updatePlayer s.players i fun p =>
          {p with
            stack := p.stack -
              min (s.current_bet - (s.players.getD i default).street_invested)
                (s.players.getD i default).stack,
            total_invested := p.total_invested +
              min (s.current_bet - (s.players.getD i default).street_invested)
                (s.players.getD i default).stack,
            street_invested := p.street_invested +
              min (s.current_bet - (s.players.getD i default).street_invested)
                (s.players.getD i default).stack},
        pot := s.pot +
          min (s.current_bet - (s.players.getD i default).street_invested)
            (s.players.getD i default).stack,
        action_log := s.action_log ++ [(name, "calls")]} := by
  unfold mwApplyAction mwLogAction
  rw [if_neg (by decide), if_pos rfl]

/-- A clockwise offset `(i + k) % n` with `1 ≤ k < n` never lands back on
the aggressor's own seat `i < n`. -/
theorem offset_ne_self {n i k : Nat} (hi : i < n) (hk1 : 1 ≤ k) (hk2 : k < n) :
    (i + k) % n ≠ i := by
  intro he
  have h1 : (i + k) % n = i % n := by rw [he, Nat.mod_eq_of_lt hi]
  have h2 : n ∣ (i + k) - i := (Nat.modEq_iff_dvd' (Nat.le_add_right i k)).mp h1.symm
  have h3 : n ∣ k := by simpa using h2
  have := Nat.le_of_dvd (by omega) h3
  omega

/-- Membership in the rebuilt queue: exactly the in-range seats other than
the aggressor that are not folded. -/
theorem mem_mwRebuildQueue (ps : List MWPlayer) (n i : Nat) (hi : i < n) (j : Nat) :
    j ∈ mwRebuildQueue ps n i ↔
      j < n ∧ j ≠ i ∧ (ps.getD j default).folded = false := by
  unfold mwRebuildQueue
  simp only [List.mem_filter, List.mem_map, List.mem_range'_1, Bool.and_eq_true,
    Bool.not_eq_true', decide_eq_true_eq]
  constructor
  · rintro ⟨⟨k, ⟨hk1, hk2⟩, rfl⟩, hf, hne⟩
    exact ⟨Nat.mod_lt _ (by omega), hne, hf⟩
  · rintro ⟨hjn, hji, hjf⟩
    rcases Nat.lt_or_ge j i with hlt | hge
    · refine ⟨⟨n + j - i, ⟨by omega, by omega⟩, ?_⟩, hjf, hji⟩
      have h : i + (n + j - i) = n + j := by omega
      rw [h, Nat.add_mod_left]
      exact Nat.mod_eq_of_lt hjn
    · have hgt : i < j := by omega
      refine ⟨⟨j - i, ⟨by omega, by omega⟩, ?_⟩, hjf, hji⟩
      rw [show i + (j - i) = j from by omega]
      exact Nat.mod_eq_of_lt hjn

/-- The hero-path rebuild (which omits the redundant `idx ≠ hero` test)
builds the same queue as the villain-path rebuild. -/
theorem mwRebuildQueueHero_eq (ps : List MWPlayer) (n i : Nat) (hi : i < n) :
    mwRebuildQueueHero ps n i = mwRebuildQueue ps n i := by
  unfold mwRebuildQueue mwRebuildQueueHero
  apply List.filter_congr
  intro x hx
  simp only [List.mem_map, List.mem_range'_1] at hx
  obtain ⟨k, ⟨hk1, hk2⟩, rfl⟩ := hx
  have hne : (i + k) % n ≠ i := offset_ne_self hi hk1 (by omega)
  simp [hne]

/-- C5: in the multiway machine, after any player bets or raises the
action queue is rebuilt to hold every other non-folded player in clockwise
order starting after the aggressor (and only such players, by the
membership characterization), while a check or call never rebuilds the
queue and only advances the queue position by one. The passive cases and
the hero path assume the actor was not already the recorded last aggressor
— an invariant of the machine, since a raiser is excluded from the rebuilt
queue until someone re-raises. -/
theorem queue_reopen_spec :
    (∀ (s : MWState) (i : Nat) (a name : String),
      s.hand_over = false → a ∈ ["bet_s", "bet_m", "bet_l", "raise"] →
      (mwVillainStep s i a name).action_queue =
        mwRebuildQueue (mwVillainStep s i a name).players s.num_players i ∧
      (mwVillainStep s i a name).action_queue_pos = 0) ∧
    (∀ (s : MWState) (i : Nat) (a name : String),
      s.hand_over = false → a ∈ ["check", "call"] →
      s.last_raiser_idx ≠ Int.ofNat i →
      (mwVillainStep s i a name).action_queue = s.action_queue ∧
      (mwVillainStep s i a name).action_queue_pos = s.action_queue_pos + 1) ∧
    (∀ (s : MWState) (a : String),
      s.hand_over = false → a ∈ ["bet_s", "bet_m", "bet_l", "raise"] →
      s.last_raiser_idx ≠ Int.ofNat s.hero_idx →
      (mwProcessHeroActionCore s a).action_queue =
        mwRebuildQueueHero (mwProcessHeroActionCore s a).players s.num_players s.hero_idx ∧
      (mwProcessHeroActionCore s a).action_queue_pos = 0) ∧
    (∀ (s : MWState) (a : String),
      s.hand_over = false → a ∈ ["check", "call"] →
      (mwProcessHeroActionCore s a).action_queue = s.action_queue ∧
      (mwProcessHeroActionCore s a).action_queue_pos = s.action_queue_pos + 1) ∧
    (∀ (ps : List MWPlayer) (n i : Nat), i < n → ∀ j : Nat,
      (j ∈ mwRebuildQueue ps n i ↔
        j < n ∧ j ≠ i ∧ (ps.getD j default).folded = false) ∧
      mwRebuildQueueHero ps n i = mwRebuildQueue ps n i) := by
  refine ⟨?_, ?_, ?_, ?_, ?_⟩
  · intro s i a name hov hmem
    have ha : a ≠ "fold" ∧ a ≠ "call" ∧ a ≠ "check" := by
      simp only [List.mem_cons, List.not_mem_nil, or_false] at hmem
      rcases hmem with rfl | rfl | rfl | rfl <;> exact ⟨by decide, by decide, by decide⟩
    unfold mwVillainStep
    rw [mwApplyAction_bet_eq s i a name ha.1 ha.2.1 ha.2.2]
    rw [if_neg (by simpa using hov)]
    rw [if_pos rfl]
    exact ⟨rfl, rfl⟩
  · intro s i a name hov hmem hlr
    unfold mwVillainStep
    simp only [List.mem_cons, List.not_mem_nil, or_false] at hmem
    rcases hmem with rfl | rfl
    · rw [mwApplyAction_check_eq s i name]
      rw [if_neg (by simpa using hov)]
      rw [if_neg (by simpa using hlr)]
      exact ⟨rfl, rfl⟩
    · rw [mwApplyAction_call_eq s i name]
      rw [if_neg (by simpa using hov)]
      rw [if_neg (by simpa using hlr)]
      exact ⟨rfl, rfl⟩
  · intro s a hov hmem hlr
    have ha : a ≠ "fold" ∧ a ≠ "call" ∧ a ≠ "check" := by
      simp only [List.mem_cons, List.not_mem_nil, or_false] at hmem
      rcases hmem with rfl | rfl | rfl | rfl <;> exact ⟨by decide, by decide, by decide⟩
    simp only [mwProcessHeroActionCore]
    rw [mwApplyAction_bet_eq _ _ a _ ha.1 ha.2.1 ha.2.2]
    rw [if_neg (by simpa using hov)]
    rw [if_pos ⟨rfl, fun he => hlr (by simpa using he.symm)⟩]
    exact ⟨rfl, rfl⟩
  · intro s a hov hmem
    simp only [mwProcessHeroActionCore]
    simp only [List.mem_cons, List.not_mem_nil, or_false] at hmem
    rcases hmem with rfl | rfl
    · rw [mwApplyAction_check_eq]
      rw [if_neg (by simpa using hov)]
      rw [if_neg (by simp)]
      exact ⟨rfl, rfl⟩
    · rw [mwApplyAction_call_eq]
      rw [if_neg (by simpa using hov)]
      rw [if_neg (by simp)]
      exact ⟨rfl, rfl⟩
  · intro ps n i hi j
    exact ⟨mem_mwRebuildQueue ps n i hi j, mwRebuildQueueHero_eq ps n i hi⟩

/-- Witness for C5 at the concrete flop state: the hero raises over the
villain's bet. -/
theorem queue_reopen_spec_witness :
    ((mwProcessHeroActionCore sampleFlopState "raise").action_queue =
      mwRebuildQueueHero (mwProcessHeroActionCore sampleFlopState "raise").players
        sampleFlopState.num_players sampleFlopState.hero_idx ∧
    (mwProcessHeroActionCore sampleFlopState "raise").action_queue_pos = 0) ∧
    ((mwVillainStep sampleFlopState 2 "call" "V2 (BB)").action_queue =
      sampleFlopState.action_queue ∧
    (mwVillainStep sampleFlopState 2 "call" "V2 (BB)").action_queue_pos =
      sampleFlopState.action_queue_pos + 1) :=
  ⟨queue_reopen_spec.2.2.1 sampleFlopState "raise" (by decide) (by decide) (by decide),
   queue_reopen_spec.2.1 sampleFlopState 2 "call" "V2 (BB)" (by decide) (by decide) (by decide)⟩

/-- The total chips in front of the players. -/
def stackSum (ps : List MWPlayer) : ℚ := (ps.map MWPlayer.stack).sum

theorem stackSum_set (ps : List MWPlayer) (i : Nat) (q : MWPlayer)
    (hi : i < ps.length) :
    stackSum (ps.set i q) = stackSum ps - (ps.getD i default).stack + q.stack := by
  induction ps generalizing i with
  | nil => simp at hi
  | cons p rest ih =>
    cases i with
    | zero =>
      simp [stackSum]
      ring
    | succ n =>
      have hn : n < rest.length := by simpa using hi
      have h := ih n hn
      unfold stackSum at h ⊢
      simp only [List.set, List.map_cons, List.sum_cons, List.getD_cons_succ]
      rw [h]
      ring

theorem stackSum_updatePlayer (ps : List MWPlayer) (i : Nat) (f : MWPlayer → MWPlayer)
    (hi : i < ps.length) :
    stackSum (updatePlayer ps i f) =
      stackSum ps - (ps.getD i default).stack + (f (ps.getD i default)).stack := by
  unfold updatePlayer
  exact stackSum_set ps i _ hi

/-- C9 (amended): `mwApplyAction` conserves the players' stacks plus the
pot for every check, call, bet and raise (legal or not), and for a fold
that leaves more than one active player; a fold that leaves exactly one
active player triggers `mwEndHand`, which credits the pot to the last
player's stack without clearing the pot field, so stacks-plus-pot grows by
exactly the pot. -/
theorem mwApplyAction_chip_conservation :
    (∀ (s : MWState) (i : Nat) (a name : String),
      i < s.players.length → a ≠ "fold" →
      stackSum (mwApplyAction s i a name).players + (mwApplyAction s i a name).pot =
        stackSum s.players + s.pot) ∧
    (∀ (s : MWState) (i : Nat) (name : String), i < s.players.length →
      ((updatePlayer s.players i fun p => {p with folded := true}).filter
          (fun p => !p.folded)).length ≠ 1 →
      stackSum (mwApplyAction s i "fold" name).players +
          (mwApplyAction s i "fold" name).pot =
        stackSum s.players + s.pot) ∧
    (∀ (s : MWState) (i : Nat) (name : String) (w : MWPlayer),
      i < s.players.length →
      (updatePlayer s.players i fun p => {p with folded := true}).filter
          (fun p => !p.folded) = [w] →
      w.idx < s.players.length →
      stackSum (mwApplyAction s i "fold" name).players +
          (mwApplyAction s i "fold" name).pot =
        stackSum s.players + s.pot + s.pot) := by
  refine ⟨?_, ?_, ?_⟩
  · intro s i a name hi ha
    by_cases hcall : a = "call"
    · subst hcall
      rw [mwApplyAction_call_eq]
      simp only
      rw [stackSum_updatePlayer _ _ _ hi]
      simp only
      ring
    · by_cases hcheck : a = "check"
      · subst hcheck
        rw [mwApplyAction_check_eq]
      · rw [mwApplyAction_bet_eq s i a name ha hcall hcheck]
        simp only
        rw [stackSum_updatePlayer _ _ _ hi]
        simp only
        ring
  · intro s i name hi hcnt
    unfold mwApplyAction mwLogAction mwActivePlayers
    rw [if_pos rfl]
    simp only
    rw [if_neg hcnt]
    simp only
    rw [stackSum_updatePlayer _ _ _ hi]
    simp only
    ring
  · intro s i name w hi hact hw
    unfold mwApplyAction mwLogAction mwActivePlayers
    rw [if_pos rfl]
    simp only
    rw [hact]
    rw [if_pos (show [w].length = 1 by simp)]
    unfold mwEndHand
    simp only [List.getD_cons_zero, List.length_cons, List.length_nil]
    rw [if_pos (show 0 + 1 > 0 by simp)]
    simp only [List.foldl_cons, List.foldl_nil]
    rw [stackSum_updatePlayer]
    · rw [stackSum_updatePlayer _ _ _ hi]
      simp only
      push_cast
      rw [div_one]
      ring
    · unfold updatePlayer
      simpa [List.length_set] using hw

/-- A 3-handed state with one player already folded and 10 bb in the pot,
used to exhibit the end-of-hand payout of a hand-ending fold. -/
def foldEndState : MWState :=
  {num_players := 3,
   players := [⟨0, "BTN", "72o", 99, true, 0, 1, false⟩,
               ⟨1, "SB", "QQ", 95, false, 2, 5, true⟩,
               ⟨2, "BB", "T9s", 96, false, 2, 4, false⟩],
   hero_idx := 1, pot := 10, street := "flop", current_bet := 2,
   last_raiser_idx := 1, opener_idx := 0, action_queue := [2],
   action_queue_pos := 0, sim_phase := "postflop_decision", hand_over := false,
   winner_idx := -1, winner_idxs := [], hand_number := 1, session_log := [],
   current_hand_actions := [], action_log := []}

/-- Counterexample to C9 as stated: a fold that leaves exactly one active
player changes the players' stacks plus the pot (the winner is paid the pot
while the pot field keeps its value, so the sum grows by the pot). -/
theorem chip_conservation_counterexample :
    ¬(stackSum (mwApplyAction foldEndState 2 "fold" "V2 (BB)").players +
        (mwApplyAction foldEndState 2 "fold" "V2 (BB)").pot =
      stackSum foldEndState.players + foldEndState.pot) := by
  norm_num [mwApplyAction, mwEndHand, mwLogAction, mwActivePlayers, updatePlayer,
    stackSum, foldEndState]

/-- Witness for the amended C9: conservation on a call, on a non-ending
fold, and the +pot outcome on a hand-ending fold. -/
theorem mwApplyAction_chip_conservation_witness :
    (stackSum (mwApplyAction sampleFlopState 0 "call" "Hero (BTN)").players +
        (mwApplyAction sampleFlopState 0 "call" "Hero (BTN)").pot =
      stackSum sampleFlopState.players + sampleFlopState.pot) ∧
    (stackSum (mwApplyAction sampleFlopState 0 "fold" "Hero (BTN)").players +
        (mwApplyAction sampleFlopState 0 "fold" "Hero (BTN)").pot =
      stackSum sampleFlopState.players + sampleFlopState.pot) ∧
    (stackSum (mwApplyAction foldEndState 2 "fold" "V2 (BB)").players +
        (mwApplyAction foldEndState 2 "fold" "V2 (BB)").pot =
      stackSum foldEndState.players + foldEndState.pot + foldEndState.pot) :=
  ⟨mwApplyAction_chip_conservation.1 sampleFlopState 0 "call" "Hero (BTN)"
      (by decide) (by decide),
   mwApplyAction_chip_conservation.2.1 sampleFlopState 0 "Hero (BTN)"
      (by decide) (by decide),
   mwApplyAction_chip_conservation.2.2 foldEndState 2 "V2 (BB)"
      ⟨1, "SB", "QQ", 95, false, 2, 5, true⟩ (by decide) (by decide) (by decide)⟩

theorem le_foldrMax (l : List ℚ) (x : ℚ) (hx : x ∈ l) : x ≤ l.foldr max 0 := by
  induction l with
  | nil => simp at hx
  | cons a rest ih =>
    rcases List.mem_cons.mp hx with rfl | h
    · exact le_max_left _ _
    · exact le_trans (ih h) (le_max_right _ _)

theorem foldrMax_le (l : List ℚ) (c : ℚ) (h0 : 0 ≤ c) (h : ∀ x ∈ l, x ≤ c) :
    l.foldr max 0 ≤ c := by
  induction l with
  | nil => simpa using h0
  | cons a rest ih =>
    exact max_le (h a (List.mem_cons_self _ _))
      (ih fun x hx => h x (List.mem_cons_of_mem _ hx))

theorem foldrMax_mem (l : List ℚ) (h : l.foldr max 0 ≠ 0) : l.foldr max 0 ∈ l := by
  induction l with
  | nil => simp at h
  | cons a rest ih =>
    simp only [List.foldr_cons] at h ⊢
    rcases max_choice a (rest.foldr max 0) with hm | hm
    · rw [hm]
      exact List.mem_cons_self _ _
    · rw [hm] at h ⊢
      exact List.mem_cons_of_mem _ (ih h)

/-- The per-key result of the `narrowPostflop` loop, read off through
`lookup`: the first entry of the range at `key` is updated by the
skip / fully-blocked / multiply-by-`max(pEffective, 0.001)` rule. -/
theorem narrowPostflopRaw_lookup (range : List (String × ℚ))
    (boardStrs blockedCards : List Card) (posLabel action : String)
    (facingBet : Bool) (noise : ℚ) (key : String) (w : ℚ)
    (hw : range.lookup key = some w) :
    (narrowPostflopRaw range boardStrs blockedCards posLabel action facingBet noise).lookup key =
      some (if w ≤ 0 then w
        else if (survivingCombos key blockedCards).length = 0 then 0
        else w * max ((1 - noise) *
            avgGtoProb (survivingCombos key blockedCards) boardStrs
              (classifyTexture boardStrs) posLabel action facingBet +
            noise * pRandomOf action facingBet noise) (1/1000)) := by
  induction range with
  | nil => simp [List.lookup] at hw
  | cons p rest ih =>
    obtain ⟨k', w'⟩ := p
    simp only [narrowPostflopRaw, List.map_cons] at ih ⊢
    have hhead : (if ((k', w') : String × ℚ).2 ≤ 0 then ((k', w') : String × ℚ)
        else if (survivingCombos ((k', w') : String × ℚ).1 blockedCards).length = 0 then
          (((k', w') : String × ℚ).1, 0)
        else (((k', w') : String × ℚ).1,
          ((k', w') : String × ℚ).2 * max ((1 - noise) *
              avgGtoProb (survivingCombos ((k', w') : String × ℚ).1 blockedCards) boardStrs
                (classifyTexture boardStrs) posLabel action facingBet +
              noise * pRandomOf action facingBet noise) (1/1000))) =
        (k', if w' ≤ 0 then w'
          else if (survivingCombos k' blockedCards).length = 0 then 0
          else w' * max ((1 - noise) *
              avgGtoProb (survivingCombos k' blockedCards) boardStrs
                (classifyTexture boardStrs) posLabel action facingBet +
              noise * pRandomOf action facingBet noise) (1/1000)) := by
      split_ifs <;> rfl
    rw [hhead]
    rw [List.lookup] at hw ⊢
    by_cases hk : (key == k') = true
    · have hkey : key = k' := by simpa using hk
      subst hkey
      simp only [hk] at hw ⊢
      cases hw
      rfl
    · have hk' : (key == k') = false := by simpa using hk
      simp only [hk'] at hw ⊢
      exact ih hw

/-- C3 (amended): for a non-fold observed action, every key with positive
weight and at least one unblocked combination is updated to
`weight * max((1 - noise) * avg_gto_prob + noise * pRandom, 0.001)`, where
`pRandom` is `1 / count` over the model's random-action list (`call, fold,
raise` facing a bet; `check, bet_m` otherwise) when the observed action is
in that list and the noise weight is positive, and `0` otherwise; after
the loop, when the maximum updated weight is positive, every positive
weight is divided by it and the resulting maximum weight is exactly 1. -/
theorem narrowPostflop_amended (range : List (String × ℚ))
    (boardStrs blockedCards : List Card) (posLabel action : String)
    (facingBet : Bool) (noise : ℚ) (key : String) (w : ℚ)
    (ha : action ≠ "fold") (hw : range.lookup key = some w) (hpos : 0 < w)
    (hs : survivingCombos key blockedCards ≠ []) :
    (narrowPostflopRaw range boardStrs blockedCards posLabel action facingBet noise).lookup key =
      some (w * max ((1 - noise) *
          avgGtoProb (survivingCombos key blockedCards) boardStrs
            (classifyTexture boardStrs) posLabel action facingBet +
          noise * pRandomOf action facingBet noise) (1/1000)) ∧
    (0 < maxWeightOf (narrowPostflopRaw range boardStrs blockedCards posLabel action facingBet noise) →
      narrowPostflop range boardStrs blockedCards posLabel action facingBet noise =
        ((narrowPostflopRaw range boardStrs blockedCards posLabel action facingBet noise).map
          fun p => (p.1,
            if p.2 > 0 then p.2 /
              maxWeightOf (narrowPostflopRaw range boardStrs blockedCards posLabel action facingBet noise)
            else p.2)) ∧
      maxWeightOf (narrowPostflop range boardStrs blockedCards posLabel action facingBet noise) = 1) := by
  constructor
  · rw [narrowPostflopRaw_lookup range boardStrs blockedCards posLabel action facingBet noise key w hw]
    rw [if_neg (not_le.mpr hpos), if_neg (by simpa [List.length_eq_zero] using hs)]
  · intro hmax
    have hresc : narrowPostflop range boardStrs blockedCards posLabel action facingBet noise =
        ((narrowPostflopRaw range boardStrs blockedCards posLabel action facingBet noise).map
          fun p => (p.1,
            if p.2 > 0 then p.2 /
              maxWeightOf (narrowPostflopRaw range boardStrs blockedCards posLabel action facingBet noise)
            else p.2)) := by
      unfold narrowPostflop
      rw [if_neg ha, if_pos hmax]
    refine ⟨hresc, ?_⟩
    rw [hresc]
    set u := narrowPostflopRaw range boardStrs blockedCards posLabel action facingBet noise with hu
    set m := maxWeightOf u with hm
    have hweights : ((u.map fun p => ((p.1 : String),
        if p.2 > 0 then p.2 / m else p.2)).map Prod.snd) =
        (u.map Prod.snd).map fun x => if x > 0 then x / m else x := by
      rw [List.map_map, List.map_map]
      exact List.map_congr_left fun p _ => rfl
    unfold maxWeightOf
    rw [hweights]
    apply le_antisymm
    · apply foldrMax_le _ _ (by norm_num)
      intro y hy
      obtain ⟨x, hxmem, rfl⟩ := List.mem_map.mp hy
      by_cases hx : x > 0
      · rw [if_pos hx]
        rw [div_le_one hmax]
        exact le_foldrMax _ _ hxmem
      · rw [if_neg hx]
        push_neg at hx
        linarith
    · apply le_foldrMax
      have hmem : m ∈ u.map Prod.snd := foldrMax_mem _ (by positivity)
      refine List.mem_map.mpr ⟨m, hmem, ?_⟩
      rw [if_pos hmax, div_self (ne_of_gt hmax)]

/-- The board `Qh 7d 2c`, used by the C3 counterexample and witness. -/
def ceBoard : List Card := [⟨10, 0⟩, ⟨5, 1⟩, ⟨0, 2⟩]

/-- Counterexample to C3 as stated: on the single-key range `{AA: 1.0}`
over the board `Qh 7d 2c` with observed action `bet_s` (not facing a bet),
the code's new weight is `1 × max(0.7 · avg + 0.3 · 0, 0.001) = 0.001`
(the noise term is dropped because `bet_s` is not in the model's
random-action list), not the claimed
`1 × max(0.7 · avg + 0.3 · (1/2), 0.001) = 0.15`. -/
theorem narrowPostflop_claim_counterexample :
    (0 : ℚ) < 1 ∧ survivingCombos "AA" [] ≠ [] ∧
    ([(("AA" : String), (1 : ℚ))].lookup "AA" = some 1) ∧
    ¬((narrowPostflopRaw [("AA", 1)] ceBoard [] "IP" "bet_s" false (3/10)).lookup "AA" =
      some (1 * max ((1 - 3/10) *
          avgGtoProb (survivingCombos "AA" []) ceBoard (classifyTexture ceBoard)
            "IP" "bet_s" false +
        (3/10) * (1 / ((narrowRandomActions false).length : ℚ))) (1/1000))) := by
  have hterm : ∀ p ∈ survivingCombos "AA" [],
      (((getStrategy "IP" (textureName (classifyTexture ceBoard))
          (bucketName (classifyHand [p.1, p.2] ceBoard (classifyTexture ceBoard))) false)).lookup
        "bet_s").getD 0 = 0 := by decide
  have havg : avgGtoProb (survivingCombos "AA" []) ceBoard (classifyTexture ceBoard)
      "IP" "bet_s" false = 0 := by
    unfold avgGtoProb
    rw [List.map_congr_left hterm]
    simp
  have hpr : pRandomOf "bet_s" false (3/10) = 0 := by
    unfold pRandomOf narrowRandomActions
    rw [if_neg]
    intro h
    simpa using h.2
  have hlen : ((narrowRandomActions false).length : ℚ) = 2 := by
    norm_num [narrowRandomActions]
  refine ⟨by decide, by decide, by decide, ?_⟩
  intro hEq
  rw [narrowPostflopRaw_lookup _ _ _ _ _ _ _ "AA" 1 (by decide)] at hEq
  rw [if_neg (by norm_num), if_neg (by decide)] at hEq
  rw [havg, hpr, hlen] at hEq
  simp only [Option.some.injEq] at hEq
  norm_num at hEq

/-- Witness for the amended C3 on the range `{AA: 1.0}` with the observed
action `bet_m`. -/
theorem narrowPostflop_amended_witness :
    (narrowPostflopRaw [(("AA" : String), (1 : ℚ))] ceBoard [] "IP" "bet_m" false (3/10)).lookup "AA" =
      some (1 * max ((1 - 3/10) *
          avgGtoProb (survivingCombos "AA" []) ceBoard
            (classifyTexture ceBoard) "IP" "bet_m" false +
          (3/10) * pRandomOf "bet_m" false (3/10)) (1/1000)) ∧
    (0 < maxWeightOf (narrowPostflopRaw [(("AA" : String), (1 : ℚ))] ceBoard [] "IP" "bet_m" false (3/10)) →
      narrowPostflop [(("AA" : String), (1 : ℚ))] ceBoard [] "IP" "bet_m" false (3/10) =
        ((narrowPostflopRaw [(("AA" : String), (1 : ℚ))] ceBoard [] "IP" "bet_m" false (3/10)).map
          fun p => (p.1,
            if p.2 > 0 then p.2 /
              maxWeightOf (narrowPostflopRaw [(("AA" : String), (1 : ℚ))] ceBoard [] "IP" "bet_m" false (3/10))
            else p.2)) ∧
      maxWeightOf (narrowPostflop [(("AA" : String), (1 : ℚ))] ceBoard [] "IP" "bet_m" false (3/10)) = 1) :=
  narrowPostflop_amended [("AA", 1)] ceBoard [] "IP" "bet_m" false (3/10) "AA" 1
    (by decide) (by decide) (by decide) (by decide)
